import Mathlib

/-!
Shallow embedding of the `ecs` registry (src/ecs.hpp) and verification of the
specification claims about it.

Modelling conventions:
* Machine integers are `Nat` with explicit `% 2 ^ 32` where the source relies on
  `uint32_t` wraparound (the per-bit reference counters `m_components_assigned`
  and `m_view_count`).  Index values stored in the slot table never exceed
  `ECS_MAX_ENTITY_COUNT`, so no wrap is modelled for them.
* Fixed-size `std::array`/`std::vector` fields become total functions
  `Nat → _`; every `.at(i)` access of the source is guarded by the
  corresponding bounds check, and an out-of-range access becomes an error
  result (C++ `std::out_of_range`).  Cells at indices that do not exist in the
  source array are never read by any operation.
* `std::bitset<64>` signatures become `Finset Nat` (bit `k` set ↔ `k ∈ s`);
  `(a & b) == b` becomes `b ⊆ a`.
* Component types are identified by their `typeid(T).hash_code()`, modelled as
  a `Nat`; the source treats hash `0` as the "unbound" marker in
  `m_bit_to_component`, so real component types correspond to positive hashes.
* `std::unique_ptr<IComponentArray>` ownership is modelled with an explicit
  heap (`World`): a component array is an address into the heap, `nullptr` is
  `none`, `ComponentArray<T>::copy` allocates a fresh address.  This makes
  deep-copy/aliasing claims about the copy and move operations meaningful.
* Operations that throw return the partially mutated state reached at the
  throw point, exactly as the surviving C++ object would hold it.
* All component values live in one type parameter `V` (the registry only ever
  reads a cell at the type it was written at, through the hash-indexed
  binding table); `Inhabited V` supplies the default-constructed cell value.
-/

namespace Ecs

def ECS_MAX_ENTITY_COUNT : Nat := 65535

def ECS_MAX_COMPONENT_COUNT : Nat := 64

/-- The `2 ^ 32`, the modulus of `uint32_t` arithmetic. -/
def U32 : Nat := 4294967296

/-- Pointwise update of a function-modelled array. -/
def upd {α : Type} (f : Nat → α) (i : Nat) (a : α) : Nat → α :=
  fun j => if j = i then a else f j

/-- The `struct Entity`: one slot of the registry's slot table, with the source's
default member initializers. -/
structure Entity where
  m_id_or_next_empty : Nat := 0
  m_next_valid_entity : Nat := ECS_MAX_ENTITY_COUNT
  m_prev_valid_entity : Nat := 0
deriving DecidableEq, Repr

/-- The heap holding the `ComponentArray` objects owned through
`std::unique_ptr`.  An address names one dense component array
(entity-indexed cells). -/
structure World (V : Type) where
  heap : Nat → Nat → V
  nextAddr : Nat

def World.alloc {V : Type} (w : World V) (arr : Nat → V) : Nat × World V :=
  (w.nextAddr, { heap := upd w.heap w.nextAddr arr, nextAddr := w.nextAddr + 1 })

def World.init {V : Type} [Inhabited V] : World V :=
  { heap := fun _ _ => default, nextAddr := 0 }

/-- The `class Registry` data members.  `m_component_arrays` stores heap addresses
(`none` = null `unique_ptr`). -/
structure Registry (V : Type) where
  m_first_available_entity_slot : Nat := 0
  m_view_count : Nat := 0
  m_entities : Nat → Entity := fun _ => {}
  m_entity_signatures : Nat → Finset Nat := fun _ => ∅
  m_view_entities : Nat → Option (Finset Nat) := fun _ => none
  m_view_signatures : Nat → Option (Finset Nat) := fun _ => none
  m_bit_to_component : Nat → Nat := fun _ => 0
  m_components_assigned : Nat → Nat := fun _ => 0
  m_component_arrays : Nat → Option Nat := fun _ => none

/-- A `Registry` as left by the default member initializers alone (this is the
state the target of the move constructor starts from: the `Registry()`
constructor body does not run for it). -/
def Registry.memberInit {V : Type} : Registry V := {}

/-- The `Registry()`: default construction, which additionally seeds the free list
`slot i ↦ i + 1` for the `ECS_MAX_ENTITY_COUNT` existing slots. -/
def Registry.init {V : Type} : Registry V :=
  { m_entities := fun i =>
      if i < ECS_MAX_ENTITY_COUNT then { m_id_or_next_empty := i + 1 } else {} }

/-- Error messages; throwing container accesses all surface as
`std::out_of_range`. -/
def atErr : String := "std::out_of_range"

/-- A `static_cast` on a null `IComponentArray*` followed by a member access:
undefined behaviour in the source, modelled as a distinguished error. -/
def nullErr : String := "null IComponentArray dereference (undefined behavior)"

/-- The `Registry::create_entity`.  Note the source's
`Entity new_entity = m_entities.at(temp);` copies the slot into a local, so
the writes to `new_entity` below never reach the slot table; only the write
to `m_entities.at(temp - 1).m_next_valid_entity` persists. -/
def create_entity {V : Type} (r : Registry V) : Option Nat × Registry V :=
  let temp := r.m_first_available_entity_slot
  if temp < ECS_MAX_ENTITY_COUNT then
    let new_entity := r.m_entities temp
    let r1 : Registry V :=
      { r with m_first_available_entity_slot := new_entity.m_id_or_next_empty }
    -- new_entity.m_id_or_next_empty = temp;               (local copy only)
    -- new_entity.m_next_valid_entity = ... ; new_entity.m_prev_valid_entity = ... ;
    let r2 : Registry V :=
      if temp > 0 then
        { r1 with
          m_entities :=
            upd r1.m_entities (temp - 1)
              ({ r1.m_entities (temp - 1) with m_next_valid_entity := temp }) }
      else r1
    (some temp, r2)
  else
    (none, r)  -- m_entities.at(temp) throws: the free list is exhausted

/-- The `do { ... } while (i < entity)` scan of `Registry::destroy_entity`,
returning the final value of `i`.  The body copies the slot into the local
`last_empty_slot_before`, so it mutates nothing.  Fuel bounds the loop; the
source loop would diverge only from states none of our runs reach. -/
def scan_free {V : Type} (r : Registry V) (e : Nat) : Nat → Nat → Except String Nat
  | 0, _ => .error "free-list scan does not terminate"
  | fuel + 1, i =>
    if i < ECS_MAX_ENTITY_COUNT then
      let last_empty_slot_before := r.m_entities i
      let i' := last_empty_slot_before.m_id_or_next_empty
      if i' < e then scan_free r e fuel i' else .ok i'
    else .error atErr

/-- The `Registry::destroy_entity`.  The free-list reinsertion in the `else`
branch writes to the local copy `last_empty_slot_before`, so that write is
lost; the live-list unlinking writes to the physical neighbours
`entity ± 1`.  Errors return the partially mutated registry, as the C++
object would stand after the exception. -/
def destroy_entity {V : Type} (e : Nat) (r : Registry V) :
    Option String × Registry V :=
  if e < ECS_MAX_ENTITY_COUNT then
    let step1 : Except String (Registry V) :=
      if e < r.m_first_available_entity_slot then
        .ok { r with
          m_entities :=
            upd r.m_entities e
              ({ r.m_entities e with m_id_or_next_empty := r.m_first_available_entity_slot }),
          m_first_available_entity_slot := e }
      else
        match scan_free r e (ECS_MAX_ENTITY_COUNT + 1) r.m_first_available_entity_slot with
        | .error msg => .error msg
        | .ok i =>
          if i < ECS_MAX_ENTITY_COUNT then
            -- destroyed_entity.m_id_or_next_empty = m_entities.at(i).m_id_or_next_empty;
            -- last_empty_slot_before.m_id_or_next_empty = entity;   (local copy: lost)
            .ok { r with
              m_entities :=
                upd r.m_entities e
                  ({ r.m_entities e with
                     m_id_or_next_empty := (r.m_entities i).m_id_or_next_empty }) }
          else .error atErr
    match step1 with
    | .error msg => (some msg, r)
    | .ok r1 =>
      if e + 1 < ECS_MAX_ENTITY_COUNT then
        let r2 : Registry V :=
          { r1 with
            m_entities :=
              upd r1.m_entities (e + 1)
                ({ r1.m_entities (e + 1) with
                   m_prev_valid_entity := (r1.m_entities e).m_prev_valid_entity }) }
        if 0 < e then
          let r3 : Registry V :=
            { r2 with
              m_entities :=
                upd r2.m_entities (e - 1)
                  ({ r2.m_entities (e - 1) with
                     m_next_valid_entity := (r2.m_entities e).m_next_valid_entity }) }
          (none, { r3 with
            m_entity_signatures :=
              upd r3.m_entity_signatures e ∅ })
        else
          (some atErr, r2)  -- m_entities.at(entity - 1) with entity = 0 underflows
      else
        (some atErr, r1)  -- m_entities.at(entity + 1) is past the last slot
  else
    (some atErr, r)  -- m_entities.at(entity) throws

/-- The `Registry::get_component_bit<T>`: first bit whose binding equals the
type's hash (the source scans bits `0 .. 63` and throws when none match;
`none` models the throw). -/
def get_component_bit_fn {V : Type} (r : Registry V) (t : Nat) : Option Nat :=
  (List.range ECS_MAX_COMPONENT_COUNT).find? (fun b => r.m_bit_to_component b = t)

/-- The `Registry::has_component_bit<T>`. -/
def has_component_bit_fn {V : Type} (r : Registry V) (t : Nat) : Bool :=
  (get_component_bit_fn r t).isSome

/-- The bit found by `Registry::create_component_bit<T>`'s
`while (m_bit_to_component.at(bit)) ++bit;` loop: the first unbound bit;
`none` when the loop runs past the end of the 64-entry array and throws. -/
def first_free_bit {V : Type} (r : Registry V) : Option Nat :=
  (List.range ECS_MAX_COMPONENT_COUNT).find? (fun b => r.m_bit_to_component b = 0)

/-- The `Registry::on_entity_signature_change`: for every entry of
`m_view_entities`, insert or erase `entity` according to whether its
signature covers the view's.  The two view maps always hold the same keys,
so the `none` signature case (where `m_view_signatures.at(view)` would
throw) is unreachable and left as the identity. -/
def on_entity_signature_change {V : Type} (e : Nat) (r : Registry V) : Registry V :=
  { r with m_view_entities := fun v =>
      match r.m_view_entities v, r.m_view_signatures v with
      | some entities, some view_signature =>
        some (if view_signature ⊆ r.m_entity_signatures e then
                insert e entities
              else
                entities.erase e)
      | some entities, none => some entities
      | none, _ => none }

/-- The `++m_components_assigned.at(index);` (`uint32_t` increment). -/
def assign_incr_count {V : Type} (index : Nat) (r : Registry V) : Registry V :=
  { r with
    m_components_assigned :=
      upd r.m_components_assigned index ((r.m_components_assigned index + 1) % U32) }

/-- The `m_entity_signatures.at(entity).set(index);` -/
def sig_set_bit {V : Type} (index e : Nat) (r : Registry V) : Registry V :=
  { r with
    m_entity_signatures :=
      upd r.m_entity_signatures e (insert index (r.m_entity_signatures e)) }

/-- The `Registry::create_component_bit<T>`: bind the first free bit to the
type's hash and allocate a fresh default-valued `ComponentArray<T>` for it.
(`none` when the scan for a free bit runs off the end of the array and
throws.) -/
def create_component_bit_fn {V : Type} [Inhabited V] (t : Nat) (w : World V)
    (r : Registry V) : Option (Nat × World V × Registry V) :=
  match first_free_bit r with
  | none => none
  | some b =>
    let (a, w') := w.alloc (fun _ => default)
    some (b, w', { r with
      m_bit_to_component := upd r.m_bit_to_component b t,
      m_component_arrays := upd r.m_component_arrays b (some a) })

/-- The `Registry::assign<T>(entity, data)`. -/
def assign {V : Type} [Inhabited V] (t e : Nat) (data : V) (w : World V)
    (r : Registry V) : Option String × World V × Registry V :=
  -- const auto index = has_component_bit<T>() ? get_component_bit<T>() : create_component_bit<T>();
  let idxRes : Except String (Nat × World V × Registry V) :=
    match get_component_bit_fn r t with
    | some b => .ok (b, w, r)
    | none =>
      match create_component_bit_fn t w r with
      | none => .error atErr  -- the while loop reads m_bit_to_component.at(64)
      | some res => .ok res
  match idxRes with
  | .error msg => (some msg, w, r)
  | .ok (index, w1, r1) =>
    let r2 := assign_incr_count index r1
    match r2.m_component_arrays index with
    | none => (some nullErr, w1, r2)
    | some a =>
      if e < ECS_MAX_ENTITY_COUNT then
        let w2 : World V := { w1 with heap := upd w1.heap a (upd (w1.heap a) e data) }
        (none, w2, on_entity_signature_change e (sig_set_bit index e r2))
      else
        (some atErr, w1, r2)  -- m_component_seq.at(entity) throws

/-- The `--m_components_assigned.at(index)` (`uint32_t` pre-decrement). -/
def remove_dec_count {V : Type} (index : Nat) (r : Registry V) : Registry V :=
  { r with
    m_components_assigned :=
      upd r.m_components_assigned index
        ((r.m_components_assigned index + (U32 - 1)) % U32) }

/-- The `if (--m_components_assigned.at(index) == 0)` release: unbind the bit
and discard the storage array (applied to the already-decremented state). -/
def remove_maybe_release {V : Type} (index : Nat) (r : Registry V) : Registry V :=
  if r.m_components_assigned index = 0 then
    { r with
      m_bit_to_component := upd r.m_bit_to_component index 0,
      m_component_arrays := upd r.m_component_arrays index none }
  else r

/-- The `m_entity_signatures.at(entity).reset(index);` -/
def sig_reset_bit {V : Type} (index e : Nat) (r : Registry V) : Registry V :=
  { r with
    m_entity_signatures :=
      upd r.m_entity_signatures e ((r.m_entity_signatures e).erase index) }

/-- The `Registry::remove<T>(entity)`.  (The source first checks
`has_component_bit<T>()` and then calls `get_component_bit<T>()`; both scan
the same table, so the combined behaviour is the single scan below.) -/
def remove {V : Type} (t e : Nat) (r : Registry V) : Option String × Registry V :=
  match get_component_bit_fn r t with
  | none => (some "Attempted to remove unassigned component.", r)
  | some index =>
    if e < ECS_MAX_ENTITY_COUNT then
      if index ∈ r.m_entity_signatures e then
        (none, on_entity_signature_change e
          (sig_reset_bit index e (remove_maybe_release index (remove_dec_count index r))))
      else
        (some "Attempted to remove unassigned component.", r)
    else
      (some atErr, r)  -- m_entity_signatures.at(entity) throws

/-- The `Registry::get<T>(entity)` (const: reads only). -/
def Registry.get {V : Type} (t e : Nat) (w : World V) (r : Registry V) :
    Except String V :=
  match get_component_bit_fn r t with
  | none => .error "Component bit queried on unregistered component."
  | some b =>
    match r.m_component_arrays b with
    | none => .error nullErr
    | some a =>
      if e < ECS_MAX_ENTITY_COUNT then .ok (w.heap a e)
      else .error atErr  -- m_component_seq.at(entity) throws

/-- The signature computed by `Registry::set_component_bits<Ts...>`: OR of the
bit of each listed type, left to right; a type with no bound bit throws. -/
def view_signature {V : Type} (r : Registry V) (ts : List Nat) :
    Except String (Finset Nat) :=
  ts.foldlM
    (fun signature t =>
      match get_component_bit_fn r t with
      | some b => .ok (insert b signature)
      | none => .error "Component bit queried on unregistered component.")
    ∅

/-- The entity scan of `Registry::create_view`:
`for (entity = 0; entity < MAX; entity = m_entities.at(entity).m_next_valid_entity)`,
collecting the entities whose signature covers the view's.  The loop exits as
soon as a next-pointer leaves the index range; fuel bounds the iteration
(`m_next_valid_entity` values written by the source strictly exceed the slot
they are written to, so `ECS_MAX_ENTITY_COUNT + 1` steps always suffice). -/
def live_scan_go {V : Type} (r : Registry V) (signature : Finset Nat) :
    Nat → Nat → Finset Nat → Finset Nat
  | 0, _, acc => acc
  | fuel + 1, e, acc =>
    if e < ECS_MAX_ENTITY_COUNT then
      let acc' := if signature ⊆ r.m_entity_signatures e then insert e acc else acc
      live_scan_go r signature fuel ((r.m_entities e).m_next_valid_entity) acc'
    else acc

def live_scan {V : Type} (r : Registry V) (signature : Finset Nat) : Finset Nat :=
  live_scan_go r signature (ECS_MAX_ENTITY_COUNT + 1) 0 ∅

/-- The `Registry::create_view<Ts...>()`.  A zero-type instantiation does not
compile in the source, so it is modelled as an error.  The interning scan
iterates `m_view_signatures`; registered handles are exactly those below
`m_view_count` that are present, and at most one can match, so scanning
handles in ascending order is faithful.  `m_view_count` is a `uint32_t` and
the source returns `m_view_count++`. -/
def create_view {V : Type} (ts : List Nat) (r : Registry V) :
    Option Nat × Registry V :=
  if ts.isEmpty then (none, r)
  else
    match view_signature r ts with
    | .error _ => (none, r)
    | .ok signature =>
      match (List.range r.m_view_count).find?
          (fun v => r.m_view_signatures v = some signature) with
      | some v => (some v, r)
      | none =>
        let members := live_scan r signature
        (some r.m_view_count,
         { r with
           m_view_signatures := upd r.m_view_signatures r.m_view_count (some signature),
           m_view_entities := upd r.m_view_entities r.m_view_count (some members),
           m_view_count := (r.m_view_count + 1) % U32 })

/-- The `Registry::destroy_view`. -/
def destroy_view {V : Type} (v : Nat) (r : Registry V) :
    Option String × Registry V :=
  if (r.m_view_signatures v).isSome then
    (none, { r with
      m_view_signatures := upd r.m_view_signatures v none,
      m_view_entities := upd r.m_view_entities v none })
  else
    (some "Attempted to remove non-existent view.", r)

/-- The `Registry::get_entities` (`m_view_entities.at(view)`, throwing on an
unknown handle). -/
def get_entities {V : Type} (v : Nat) (r : Registry V) :
    Except String (Finset Nat) :=
  match r.m_view_entities v with
  | some entities => .ok entities
  | none => .error atErr

/-- Traversal of the live doubly linked list, exactly as the source's only
such traversal (the `create_view` scan) walks it: from index 0 along
`m_next_valid_entity` until the index leaves the valid range, listing every
slot index visited. -/
def live_traverse_go {V : Type} (r : Registry V) : Nat → Nat → List Nat
  | 0, _ => []
  | fuel + 1, e =>
    if e < ECS_MAX_ENTITY_COUNT then
      e :: live_traverse_go r fuel ((r.m_entities e).m_next_valid_entity)
    else []

def liveListTraversal {V : Type} (r : Registry V) : List Nat :=
  live_traverse_go r (ECS_MAX_ENTITY_COUNT + 1) 0

/-- One iteration of the copy constructor's clone loop: if `other` owns an
array at bit `i`, clone it (`ComponentArray<T>::copy`) into a fresh heap
cell and point the new registry's bit `i` at the clone. -/
def copy_arrays_step {V : Type} (other : Registry V)
    (acc : World V × Registry V) (i : Nat) : World V × Registry V :=
  match other.m_component_arrays i with
  | some a =>
    let (a', w') := acc.1.alloc (acc.1.heap a)
    (w', { acc.2 with m_component_arrays := upd acc.2.m_component_arrays i (some a') })
  | none => acc

/-- The member-by-member assignments of the copy constructor's body, before
the clone loop runs: starting from the default member initializers, the
listed fields are value-copied; `m_components_assigned` is **not** among
them and keeps its all-zero default. -/
def copy_base {V : Type} (other : Registry V) : Registry V :=
  { (Registry.memberInit : Registry V) with
    m_entities := other.m_entities,
    m_first_available_entity_slot := other.m_first_available_entity_slot,
    m_view_count := other.m_view_count,
    m_entity_signatures := other.m_entity_signatures,
    m_view_entities := other.m_view_entities,
    m_view_signatures := other.m_view_signatures,
    m_bit_to_component := other.m_bit_to_component }

/-- The `Registry::Registry(const Registry&)`: value-copies the slot table,
free-list head, view counter, signatures, both view maps and the binding
table, and deep-clones every non-null component array. -/
def copyRegistry {V : Type} (w : World V) (other : Registry V) :
    World V × Registry V :=
  (List.range ECS_MAX_COMPONENT_COUNT).foldl (copy_arrays_step other)
    (w, copy_base other)

/-- The `Registry::operator=(Registry&&)`: swaps the listed members between the
two objects.  `m_components_assigned` and `m_component_arrays` are **not**
in the swap list; each object keeps its own. -/
def moveAssign {V : Type} (this other : Registry V) :
    Registry V × Registry V :=
  ({ this with
     m_entities := other.m_entities,
     m_first_available_entity_slot := other.m_first_available_entity_slot,
     m_view_count := other.m_view_count,
     m_entity_signatures := other.m_entity_signatures,
     m_view_entities := other.m_view_entities,
     m_view_signatures := other.m_view_signatures,
     m_bit_to_component := other.m_bit_to_component },
   { other with
     m_entities := this.m_entities,
     m_first_available_entity_slot := this.m_first_available_entity_slot,
     m_view_count := this.m_view_count,
     m_entity_signatures := this.m_entity_signatures,
     m_view_entities := this.m_view_entities,
     m_view_signatures := this.m_view_signatures,
     m_bit_to_component := this.m_bit_to_component })

/-- The `Registry::operator=(const Registry&)`: `return *this = Registry(other);`
copy-constructs a temporary (cloning the arrays into fresh heap cells) and
move-assigns it into `*this`; the temporary, holding `*this`'s previous
swap-listed members together with the fresh clones, is then destroyed. -/
def copyAssign {V : Type} (w : World V) (this other : Registry V) :
    World V × Registry V :=
  let (w', tmp) := copyRegistry w other
  let (this', _tmpDead) := moveAssign this tmp
  (w', this')

/-- The `Registry::Registry(Registry&& other) { *this = other; }`: inside the
body `other` is an lvalue, so this invokes the **copy** assignment operator,
on a target whose members are still bare default-member-initialized. -/
def moveConstruct {V : Type} (w : World V) (other : Registry V) :
    World V × Registry V :=
  copyAssign w Registry.memberInit other

/-- Reduce an `Except` result to the value it carries, if any (used to state
decidable facts about `Registry.get` results). -/
def resultValue {V : Type} : Except String V → Option V
  | .ok v => some v
  | .error _ => none

/-- The public operations a client can apply to one registry, as used by the
operation-sequence claims. -/
inductive Op (V : Type) where
  | createE : Op V
  | destroyE (e : Nat) : Op V
  | assignC (t e : Nat) (v : V) : Op V
  | removeC (t e : Nat) : Op V
  | createV (ts : List Nat) : Op V
  | destroyV (h : Nat) : Op V

/-- One operation applied to the (heap, registry) state; return values and
error signals go to the caller, the mutated state persists. -/
def step {V : Type} [Inhabited V] (op : Op V) (s : World V × Registry V) :
    World V × Registry V :=
  match op with
  | .createE => (s.1, (create_entity s.2).2)
  | .destroyE e => (s.1, (destroy_entity e s.2).2)
  | .assignC t e v => (assign t e v s.1 s.2).2
  | .removeC t e => (s.1, (remove t e s.2).2)
  | .createV ts => (s.1, (create_view ts s.2).2)
  | .destroyV h => (s.1, (destroy_view h s.2).2)

def run {V : Type} [Inhabited V] (ops : List (Op V)) (s : World V × Registry V) :
    World V × Registry V :=
  ops.foldl (fun s op => step op s) s

/-- Run a sequence of operations while also computing, alongside, the set of
entity ids that the specification calls live: ids whose most recent
operation was a (successful) create and that have not since been destroyed. -/
def runWithLive {V : Type} [Inhabited V] (ops : List (Op V))
    (s : World V × Registry V) (live : Finset Nat) :
    (World V × Registry V) × Finset Nat :=
  ops.foldl
    (fun acc op =>
      match op with
      | .createE =>
        (step Op.createE acc.1,
         match (create_entity acc.1.2).1 with
         | some id => insert id acc.2
         | none => acc.2)
      | .destroyE e => (step (Op.destroyE e) acc.1, acc.2.erase e)
      | _ => (step op acc.1, acc.2))
    (s, live)

/-- Writing through the mutable reference returned by `Registry::get<T>`
(`registry.get<T>(e) = v`): a store into the heap cell the reference points
at.  The cases in which `get` would throw perform no write. -/
def write_through_get {V : Type} (t e : Nat) (v : V) (w : World V)
    (r : Registry V) : World V :=
  match get_component_bit_fn r t with
  | none => w
  | some b =>
    match r.m_component_arrays b with
    | none => w
    | some a =>
      if e < ECS_MAX_ENTITY_COUNT then
        { w with heap := upd w.heap a (upd (w.heap a) e v) }
      else w

/-- Number of (addressable) entities whose signature currently has bit `b`
set: the quantity the source's reference counting is meant to track. -/
def holders {V : Type} (r : Registry V) (b : Nat) : Nat :=
  ((Finset.range ECS_MAX_ENTITY_COUNT).filter
    (fun e => b ∈ r.m_entity_signatures e)).card

section Scenarios

/-- Scenario for C1: two entities, component type `1` on entity `1`, a view
over type `1`, then `destroy_entity 1`. -/
def opsC1 : List (Op Nat) :=
  [.createE, .createE, .assignC 1 1 5, .createV [1], .destroyE 1]

def stC1 : World Nat × Registry Nat := run opsC1 (World.init, Registry.init)

/-- Scenario for C2: the create/destroy pattern `0,1,2,3` created, `1` and
`3` destroyed, two more creates (reusing `1` and allocating `4`), then type
`1` assigned to entity `4`.  A view over type `1` is created afterwards. -/
def opsC2 : List (Op Nat) :=
  [.createE, .createE, .createE, .createE, .destroyE 1, .destroyE 3,
   .createE, .createE, .assignC 1 4 9]

def runC2 : (World Nat × Registry Nat) × Finset Nat :=
  runWithLive opsC2 (World.init, Registry.init) ∅

def stC2 : World Nat × Registry Nat := runC2.1

/-- Scenario for C3: create `0,1,2`, destroy `1`, then destroy `2`. -/
def opsC3 : List (Op Nat) :=
  [.createE, .createE, .createE, .destroyE 1, .destroyE 2]

def runC3 : (World Nat × Registry Nat) × Finset Nat :=
  runWithLive opsC3 (World.init, Registry.init) ∅

/-- Scenario for C4/C10: entities `0` and `1` both hold component type `1`. -/
def stC4a : World Nat × Registry Nat :=
  run [(.createE : Op Nat), .createE, .assignC 1 0 10, .assignC 1 1 20]
    (World.init, Registry.init)

/-- The copy-constructed registry of the C4 scenario (reference counts reset
to zero by the copy constructor). -/
def stC4b : World Nat × Registry Nat := copyRegistry stC4a.1 stC4a.2

/-- On the copy: re-assign type `1` on entity `0` with value `42`, then
remove type `1` from the *other* entity `1`. -/
def stC4c : World Nat × Registry Nat :=
  run [(.assignC 1 0 42 : Op Nat), .removeC 1 1] stC4b

/-- Scenario for C5: both entities hold type `1`; it is removed from entity
`1` while entity `0` keeps it. -/
def stC5 : World Nat × Registry Nat :=
  run [(.createE : Op Nat), .createE, .assignC 1 0 10, .assignC 1 1 20,
       .removeC 1 1]
    (World.init, Registry.init)

/-- Scenario for C7: component type `1` assigned to entity `0` twice. -/
def stC7a : World Nat × Registry Nat :=
  run [(.createE : Op Nat), .assignC 1 0 10] (World.init, Registry.init)

def stC7b : World Nat × Registry Nat := run [(.assignC 1 0 11 : Op Nat)] stC7a

/-- Scenario for C9: a registry owning one component value, then
move-constructed from. -/
def stC9pre : World Nat × Registry Nat :=
  run [(.createE : Op Nat), .assignC 1 0 7] (World.init, Registry.init)

def stC9 : World Nat × Registry Nat := moveConstruct stC9pre.1 stC9pre.2

/-- Scenario for C10's divergence conjunct: one entity holding type `1`. -/
def stC10 : World Nat × Registry Nat :=
  run [(.createE : Op Nat), .assignC 1 0 10] (World.init, Registry.init)

def stC10copy : World Nat × Registry Nat := copyRegistry stC10.1 stC10.2

end Scenarios

/-- The `resultValue x = some v` forces `x = .ok v`. -/
theorem resultValue_eq_some {V : Type} {x : Except String V} {v : V}
    (h : resultValue x = some v) : x = .ok v := by
  cases x with
  | ok w => cases h; rfl
  | error m => simp [resultValue] at h

/-- C1: refuted on the code — `destroy_entity` never updates the view
caches.  In the C1 scenario, after destroying entity `1` the view over
component type `1` still caches `{1}` as its member set, although entity
`1`'s signature has been reset to the empty set (so it is not a superset of
the view's required signature `{0}`) and the live-list traversal no longer
reaches `1`.  The claimed consistency invariant therefore fails right after
this mutation. -/
theorem c1_destroy_leaves_stale_view_member :
    stC1.2.m_view_entities 0 = some {1} ∧
    stC1.2.m_view_signatures 0 = some {0} ∧
    stC1.2.m_entity_signatures 1 = ∅ ∧
    liveListTraversal stC1.2 = [0] := by
  decide

/-- C2: the interning half of the claim holds in this scenario (both calls
return handle `0`), but the membership half is refuted: in the C2 state,
entity `4` is live (it was created, never destroyed, and its signature
`{0}` covers the view signature `{0}`), yet the freshly created view's
cached member set is `∅`, because the broken next-pointers make the live
scan stop at slot `2` and never reach `4`. -/
theorem c2_create_view_misses_live_entity :
    (create_view [1] stC2.2).1 = some 0 ∧
    (create_view [1] (create_view [1] stC2.2).2).1 = some 0 ∧
    (create_view [1] stC2.2).2.m_view_entities 0 = some ∅ ∧
    (create_view [1] stC2.2).2.m_view_signatures 0 = some {0} ∧
    stC2.2.m_entity_signatures 4 = {0} ∧
    runC2.2 = {0, 1, 2, 4} ∧
    liveListTraversal stC2.2 = [0, 1, 2] := by
  decide

/-- C3: refuted on the code.  After `create ×3, destroy 1, destroy 2` the
live-list traversal still visits slot `2` — whose most recent operation was
`destroy` — because `destroy_entity 2` patched the next-pointer of the
(already destroyed) physical neighbour `1` instead of the live
predecessor `0`.  The traversal yields `[0, 2]` while the set of ids whose
last operation was a create is `{0}`. -/
theorem c3_live_list_traversal_wrong :
    liveListTraversal runC3.1.2 = [0, 2] ∧
    runC3.2 = {0} := by
  decide

/-- C9: refuted on the code.  Move-constructing from a registry holding one
component value: the target receives the slot table, signatures and binding
table, but the swap list of the move assignment omits `m_component_arrays`
(and `m_components_assigned`), so the target's storage pointers are still
null and `get` dereferences a null `IComponentArray*`; moreover the move
went through the copy-assignment operator, deep-cloning the storage into a
temporary that is immediately destroyed (one fresh heap allocation), and
the moved-from source still owns its original array. -/
theorem c9_move_construction_loses_storage :
    resultValue (Registry.get 1 0 stC9.1 stC9.2) = none ∧
    stC9.2.m_bit_to_component 0 = 1 ∧
    stC9.2.m_component_arrays 0 = none ∧
    stC9.2.m_components_assigned 0 = 0 ∧
    stC9.1.nextAddr = stC9pre.1.nextAddr + 1 ∧
    resultValue (Registry.get 1 0 stC9.1 stC9pre.2) = some 7 := by
  decide

/-- C4 counterexample: on a copy-constructed registry (whose reference
counts were reset to zero), after `assign<1>(0, 42)` the single intervening
operation `remove<1>(1)` — which neither overwrites nor removes type `1` on
entity `0` nor destroys entity `0` — drops the count to zero, releases the
bit and discards the storage, so `get<1>(0)` fails instead of returning
`42`. -/
theorem c4_roundtrip_counterexample :
    resultValue (Registry.get 1 0 stC4c.1 stC4c.2) = none ∧
    Registry.get 1 0 stC4c.1 stC4c.2 ≠ Except.ok 42 := by
  have h : resultValue (Registry.get 1 0 stC4c.1 stC4c.2) = none := by decide
  refine ⟨h, fun hc => ?_⟩
  rw [hc] at h
  exact Option.noConfusion h

/-- C5 counterexample: entity `1` had component type `1` removed, but since
entity `0` still holds that type the bit stays bound, and `get<1>(1)`
succeeds, returning the stale stored value `20` instead of failing. -/
theorem c5_get_after_remove_counterexample :
    Registry.get 1 1 stC5.1 stC5.2 = Except.ok 20 ∧
    (remove 1 1 (run [(.createE : Op Nat), .createE, .assignC 1 0 10,
        .assignC 1 1 20] (World.init, Registry.init)).2).1 = none := by
  constructor
  · exact resultValue_eq_some (by decide)
  · decide

/-- C7 counterexample: re-assigning component type `1` on entity `0` (which
already holds it) raises `m_components_assigned` from `1` to `2`; the claim
says the count is unchanged. -/
theorem c7_reassign_counterexample :
    stC7a.2.m_components_assigned 0 = 1 ∧
    stC7b.2.m_components_assigned 0 = 2 := by
  decide

theorem upd_apply_same {α : Type} (f : Nat → α) (i : Nat) (a : α) :
    upd f i a i = a := by
  simp [upd]

theorem upd_apply_other {α : Type} (f : Nat → α) {i j : Nat} (a : α)
    (h : j ≠ i) : upd f i a j = f j := by
  simp [upd, h]

theorem upd_self {α : Type} (f : Nat → α) (i : Nat) : upd f i (f i) = f := by
  funext j
  by_cases h : j = i <;> simp [upd, h]

/-- A successful `get_component_bit_fn` lookup yields a bit below
`ECS_MAX_COMPONENT_COUNT` bound to the queried hash. -/
theorem get_bit_spec {V : Type} {r : Registry V} {t b : Nat}
    (hb : get_component_bit_fn r t = some b) :
    b < ECS_MAX_COMPONENT_COUNT ∧ r.m_bit_to_component b = t := by
  unfold get_component_bit_fn at hb
  have h1 := List.mem_of_find?_eq_some hb
  have h2 := List.find?_some hb
  exact ⟨List.mem_range.mp h1, by simpa using h2⟩

/-- When the hash `t` is bound at exactly one bit `b`, the source's
first-match scan finds `b`. -/
theorem get_bit_eq_some {V : Type} {r : Registry V} {t b : Nat}
    (hblt : b < ECS_MAX_COMPONENT_COUNT)
    (hbt : r.m_bit_to_component b = t)
    (huniq : ∀ b' < ECS_MAX_COMPONENT_COUNT, r.m_bit_to_component b' = t → b' = b) :
    get_component_bit_fn r t = some b := by
  unfold get_component_bit_fn
  cases hf : (List.range ECS_MAX_COMPONENT_COUNT).find?
      (fun b' => r.m_bit_to_component b' = t) with
  | none =>
    exfalso
    have := List.find?_eq_none.mp hf b (List.mem_range.mpr hblt)
    simp [hbt] at this
  | some x =>
    have hx := List.find?_some hf
    have hmem := List.mem_of_find?_eq_some hf
    have hxb : x = b := huniq x (List.mem_range.mp hmem) (by simpa using hx)
    rw [hxb]

/-- When no bit in range is bound to `t`, the scan fails. -/
theorem get_bit_eq_none {V : Type} {r : Registry V} {t : Nat}
    (h : ∀ b' < ECS_MAX_COMPONENT_COUNT, r.m_bit_to_component b' ≠ t) :
    get_component_bit_fn r t = none := by
  unfold get_component_bit_fn
  refine List.find?_eq_none.mpr ?_
  intro x hx
  simpa using h x (List.mem_range.mp hx)

/-- The `get_component_bit_fn` reads only the binding table. -/
theorem get_bit_congr {V : Type} {r r' : Registry V} (t : Nat)
    (h : r'.m_bit_to_component = r.m_bit_to_component) :
    get_component_bit_fn r' t = get_component_bit_fn r t := by
  unfold get_component_bit_fn
  rw [h]

/-- The `Registry.get` evaluated when the bit is found and storage is non-null. -/
theorem get_eq_ok {V : Type} {t e b a : Nat} (w : World V) {r : Registry V}
    (hb : get_component_bit_fn r t = some b)
    (ha : r.m_component_arrays b = some a)
    (he : e < ECS_MAX_ENTITY_COUNT) :
    Registry.get t e w r = .ok (w.heap a e) := by
  simp only [Registry.get, hb, ha, he, if_true]

/-- The `Registry.get` evaluated when the type is not bound anywhere. -/
theorem get_eq_unbound {V : Type} {t e : Nat} (w : World V) {r : Registry V}
    (h : get_component_bit_fn r t = none) :
    Registry.get t e w r
      = .error "Component bit queried on unregistered component." := by
  simp only [Registry.get, h]

/-- The `uint32_t` pre-decrement of a nonzero in-range counter. -/
theorem dec_mod_of_pos {c : Nat} (h1 : 1 ≤ c) (h2 : c < U32) :
    (c + (U32 - 1)) % U32 = c - 1 := by
  have : c + (U32 - 1) = (c - 1) + 1 * U32 := by
    unfold U32 at *
    omega
  rw [this, Nat.add_mul_mod_self_right]
  unfold U32 at *
  omega

/-- The `uint32_t` pre-decrement of a zero counter wraps to `U32 - 1`. -/
theorem dec_mod_of_zero : ((0 : Nat) + (U32 - 1)) % U32 = U32 - 1 := by
  decide

/-- All registry fields other than `m_component_arrays` agree. -/
def EqButArrays {V : Type} (a b : Registry V) : Prop :=
  a.m_first_available_entity_slot = b.m_first_available_entity_slot ∧
  a.m_view_count = b.m_view_count ∧
  a.m_entities = b.m_entities ∧
  a.m_entity_signatures = b.m_entity_signatures ∧
  a.m_view_entities = b.m_view_entities ∧
  a.m_view_signatures = b.m_view_signatures ∧
  a.m_bit_to_component = b.m_bit_to_component ∧
  a.m_components_assigned = b.m_components_assigned

theorem eqButArrays_refl {V : Type} (a : Registry V) : EqButArrays a a :=
  ⟨rfl, rfl, rfl, rfl, rfl, rfl, rfl, rfl⟩

theorem eqButArrays_trans {V : Type} {a b c : Registry V}
    (h1 : EqButArrays a b) (h2 : EqButArrays b c) : EqButArrays a c := by
  obtain ⟨x1, x2, x3, x4, x5, x6, x7, x8⟩ := h1
  obtain ⟨y1, y2, y3, y4, y5, y6, y7, y8⟩ := h2
  exact ⟨x1.trans y1, x2.trans y2, x3.trans y3, x4.trans y4,
         x5.trans y5, x6.trans y6, x7.trans y7, x8.trans y8⟩

theorem copy_arrays_step_eqButArrays {V : Type} (other : Registry V)
    (acc : World V × Registry V) (i : Nat) :
    EqButArrays (copy_arrays_step other acc i).2 acc.2 := by
  unfold copy_arrays_step
  cases other.m_component_arrays i with
  | some a => exact ⟨rfl, rfl, rfl, rfl, rfl, rfl, rfl, rfl⟩
  | none => exact eqButArrays_refl _

theorem copy_fold_eqButArrays {V : Type} (other : Registry V) :
    ∀ (l : List Nat) (acc : World V × Registry V),
      EqButArrays (l.foldl (copy_arrays_step other) acc).2 acc.2 := by
  intro l
  induction l with
  | nil => intro acc; exact eqButArrays_refl _
  | cons i tl ih =>
    intro acc
    exact eqButArrays_trans (ih (copy_arrays_step other acc i))
      (copy_arrays_step_eqButArrays other acc i)

/-- C10: confirmed.  The copy constructor copies the slot table, free-list
head, view counter, entity signatures, both view maps and the type-binding
table, and deep-clones storage, but it does not copy
`m_components_assigned`, which stays at its default-initialized all-zero
value on the copy.  Consequently `remove`'s bit-release bookkeeping
diverges between original and copy: in the concrete one-holder scenario,
removing the component on the original drops the count to zero and releases
the bit (`m_bit_to_component 0` becomes `0`), while the same call on the
copy wraps the zero count and leaves the bit bound. -/
theorem c10_copy_skips_reference_counts {V : Type} (w : World V)
    (r : Registry V) :
    (∀ t, (copyRegistry w r).2.m_components_assigned t = 0) ∧
    (copyRegistry w r).2.m_entity_signatures = r.m_entity_signatures ∧
    (copyRegistry w r).2.m_entities = r.m_entities ∧
    (copyRegistry w r).2.m_first_available_entity_slot
      = r.m_first_available_entity_slot ∧
    (copyRegistry w r).2.m_view_count = r.m_view_count ∧
    (copyRegistry w r).2.m_view_entities = r.m_view_entities ∧
    (copyRegistry w r).2.m_view_signatures = r.m_view_signatures ∧
    (copyRegistry w r).2.m_bit_to_component = r.m_bit_to_component ∧
    ((remove 1 0 stC10.2).2.m_bit_to_component 0 = 0 ∧
     (remove 1 0 stC10copy.2).2.m_bit_to_component 0 = 1 ∧
     stC10.2.m_components_assigned 0 = 1 ∧
     stC10copy.2.m_components_assigned 0 = 0) := by
  have h := copy_fold_eqButArrays r
    (List.range ECS_MAX_COMPONENT_COUNT) (w, copy_base r)
  obtain ⟨h1, h2, h3, h4, h5, h6, h7, h8⟩ := h
  refine ⟨?_, ?_, ?_, ?_, ?_, ?_, ?_, ?_, by decide, by decide, by decide, by decide⟩
  · intro t
    exact (congrFun h8 t).trans rfl
  · exact h4
  · exact h3
  · exact h1
  · exact h2
  · exact h5
  · exact h6
  · exact h7

/-- C6: confirmed.  If the bit resolved for `T` (when `T` is bound at all)
is not set in `e`'s signature, `remove<T>(e)` throws and leaves the entire
registry unchanged — both validation checks precede every mutation. -/
theorem c6_remove_absent_is_error_and_noop {V : Type} (t e : Nat)
    (r : Registry V)
    (h : ∀ b, get_component_bit_fn r t = some b → b ∉ r.m_entity_signatures e) :
    (remove t e r).1.isSome ∧ (remove t e r).2 = r := by
  unfold remove
  cases hb : get_component_bit_fn r t with
  | none => simp
  | some b =>
    have hbs := h b hb
    by_cases he : e < ECS_MAX_ENTITY_COUNT
    · simp [he, hbs]
    · simp [he]

/-- Witness for C6: in the C5 scenario state, entity `1` no longer holds
component type `1` (bound at bit `0`), and removing it again errors without
changing the registry. -/
theorem c6_witness :
    (∀ b, get_component_bit_fn stC5.2 1 = some b →
       b ∉ stC5.2.m_entity_signatures 1) ∧
    (remove 1 1 stC5.2).1.isSome ∧ (remove 1 1 stC5.2).2 = stC5.2 := by
  have h : ∀ b, get_component_bit_fn stC5.2 1 = some b →
      b ∉ stC5.2.m_entity_signatures 1 := by
    intro b hb
    have h0 : get_component_bit_fn stC5.2 1 = some 0 := by decide
    rw [h0] at hb
    cases hb
    decide
  exact ⟨h, (c6_remove_absent_is_error_and_noop 1 1 stC5.2 h).1,
    (c6_remove_absent_is_error_and_noop 1 1 stC5.2 h).2⟩

/-- A `remove` whose validation passes reduces to its mutation stages. -/
theorem remove_hit {V : Type} {t e b : Nat} {r : Registry V}
    (hb : get_component_bit_fn r t = some b)
    (he : e < ECS_MAX_ENTITY_COUNT)
    (hsig : b ∈ r.m_entity_signatures e) :
    remove t e r = (none, on_entity_signature_change e
      (sig_reset_bit b e (remove_maybe_release b (remove_dec_count b r)))) := by
  unfold remove
  rw [hb]
  simp [he, hsig]

/-- Field-level description of a successful `remove`: the count at the
resolved bit is pre-decremented (`uint32`), the bit and storage are released
exactly when the new count is zero, the entity's signature bit is cleared,
and the slot table, heap-facing fields and view signatures are untouched
(only `m_view_entities` is refreshed). -/
theorem remove_hit_fields {V : Type} {t e b : Nat} {r : Registry V}
    (hb : get_component_bit_fn r t = some b)
    (he : e < ECS_MAX_ENTITY_COUNT)
    (hsig : b ∈ r.m_entity_signatures e) :
    (remove t e r).1 = none ∧
    (remove t e r).2.m_bit_to_component =
      (if (r.m_components_assigned b + (U32 - 1)) % U32 = 0 then
         upd r.m_bit_to_component b 0
       else r.m_bit_to_component) ∧
    (remove t e r).2.m_component_arrays =
      (if (r.m_components_assigned b + (U32 - 1)) % U32 = 0 then
         upd r.m_component_arrays b none
       else r.m_component_arrays) ∧
    (remove t e r).2.m_components_assigned =
      upd r.m_components_assigned b ((r.m_components_assigned b + (U32 - 1)) % U32) ∧
    (remove t e r).2.m_entity_signatures =
      upd r.m_entity_signatures e ((r.m_entity_signatures e).erase b) ∧
    (remove t e r).2.m_entities = r.m_entities ∧
    (remove t e r).2.m_first_available_entity_slot
      = r.m_first_available_entity_slot ∧
    (remove t e r).2.m_view_count = r.m_view_count ∧
    (remove t e r).2.m_view_signatures = r.m_view_signatures := by
  rw [remove_hit hb he hsig]
  by_cases hz : (r.m_components_assigned b + (U32 - 1)) % U32 = 0 <;>
    simp [on_entity_signature_change, sig_reset_bit, remove_maybe_release,
      remove_dec_count, upd_apply_same, hz]

/-- C5 amended: after a successful `remove<T>(e)` (with `T` bound at the
single bit `b`, storage non-null, and `e` holding the bit), a subsequent
`get<T>(e)` fails precisely when the removal dropped the `uint32` reference
count to zero (pre-call count `1`), which unbinds the bit; in every other
case `T` stays bound and `get<T>(e)` *succeeds*, returning the stale stored
cell — the source checks only that the type is bound somewhere, never the
entity's signature bit. -/
theorem c5_amended_get_after_remove {V : Type} (t e b a : Nat) (w : World V)
    (r : Registry V)
    (ht : 0 < t)
    (hb : get_component_bit_fn r t = some b)
    (huniq : ∀ b' < ECS_MAX_COMPONENT_COUNT, r.m_bit_to_component b' = t → b' = b)
    (he : e < ECS_MAX_ENTITY_COUNT)
    (hsig : b ∈ r.m_entity_signatures e)
    (ha : r.m_component_arrays b = some a)
    (hcnt : r.m_components_assigned b < U32) :
    (remove t e r).1 = none ∧
    Registry.get t e w (remove t e r).2 =
      (if r.m_components_assigned b = 1 then
         Except.error "Component bit queried on unregistered component."
       else
         Except.ok (w.heap a e)) := by
  obtain ⟨h1, hbit, harr, hcntf, hsigf, -, -, -, -⟩ := remove_hit_fields hb he hsig
  refine ⟨h1, ?_⟩
  by_cases hc1 : r.m_components_assigned b = 1
  · have hz : (r.m_components_assigned b + (U32 - 1)) % U32 = 0 := by
      rw [hc1]; decide
    rw [if_pos hc1]
    rw [hz, if_pos rfl] at hbit
    have hnone : get_component_bit_fn (remove t e r).2 t = none := by
      apply get_bit_eq_none
      intro b' hb' hbt'
      rw [hbit] at hbt'
      by_cases hbb : b' = b
      · subst hbb
        rw [upd_apply_same] at hbt'
        omega
      · rw [upd_apply_other _ _ hbb] at hbt'
        exact hbb (huniq b' hb' hbt')
    exact get_eq_unbound w hnone
  · have hz : (r.m_components_assigned b + (U32 - 1)) % U32 ≠ 0 := by
      rcases Nat.eq_zero_or_pos (r.m_components_assigned b) with h0 | hpos
      · rw [h0, dec_mod_of_zero]
        decide
      · rw [dec_mod_of_pos hpos hcnt]
        omega
    rw [if_neg hc1]
    rw [if_neg hz] at hbit harr
    have hfind : get_component_bit_fn (remove t e r).2 t = some b := by
      rw [get_bit_congr t hbit, hb]
    have harrb : (remove t e r).2.m_component_arrays b = some a := by
      rw [harr, ha]
    exact get_eq_ok w hfind harrb he

/-- The registry of the C5 scenario just before the removal: both entities
`0` and `1` hold component type `1` (bound at bit `0`, count `2`). -/
def stC5pre : World Nat × Registry Nat :=
  run [(.createE : Op Nat), .createE, .assignC 1 0 10, .assignC 1 1 20]
    (World.init, Registry.init)

/-- Witness for the amended C5: removing type `1` from entity `1` while the
count is `2` leaves the type bound, and `get` returns the stale cell. -/
theorem c5_amended_witness :
    ((0 : Nat) < 1 ∧ get_component_bit_fn stC5pre.2 1 = some 0 ∧
     1 < ECS_MAX_ENTITY_COUNT ∧ 0 ∈ stC5pre.2.m_entity_signatures 1 ∧
     stC5pre.2.m_component_arrays 0 = some 0 ∧
     stC5pre.2.m_components_assigned 0 = 2) ∧
    ((remove 1 1 stC5pre.2).1 = none ∧
     Registry.get 1 1 stC5pre.1 (remove 1 1 stC5pre.2).2 =
       (if stC5pre.2.m_components_assigned 0 = 1 then
          Except.error "Component bit queried on unregistered component."
        else Except.ok (stC5pre.1.heap 0 1))) :=
  ⟨by decide,
   c5_amended_get_after_remove 1 1 0 0 stC5pre.1 stC5pre.2 (by decide) (by decide)
     (by decide) (by decide) (by decide) (by decide) (by decide)⟩

/-- The `on_entity_signature_change` at a registered view: membership of `e` is
recomputed from `e`'s current signature. -/
theorem on_change_view_some {V : Type} (e vw : Nat) {r : Registry V}
    {es vs : Finset Nat}
    (h1 : r.m_view_entities vw = some es)
    (h2 : r.m_view_signatures vw = some vs) :
    (on_entity_signature_change e r).m_view_entities vw =
      some (if vs ⊆ r.m_entity_signatures e then insert e es else es.erase e) := by
  simp only [on_entity_signature_change, h1, h2]

/-- The `on_entity_signature_change` at an unregistered view: no entry. -/
theorem on_change_view_none {V : Type} (e vw : Nat) {r : Registry V}
    (h1 : r.m_view_entities vw = none) :
    (on_entity_signature_change e r).m_view_entities vw = none := by
  simp only [on_entity_signature_change, h1]

/-- An `assign` that resolves to an already-bound bit with live storage and
an in-range entity reduces to its mutation stages. -/
theorem assign_hit {V : Type} [Inhabited V] {t e b a : Nat} {r : Registry V}
    (w : World V) (data : V)
    (hb : get_component_bit_fn r t = some b)
    (ha : r.m_component_arrays b = some a)
    (he : e < ECS_MAX_ENTITY_COUNT) :
    assign t e data w r =
      (none, { w with heap := upd w.heap a (upd (w.heap a) e data) },
       on_entity_signature_change e (sig_set_bit b e (assign_incr_count b r))) := by
  unfold assign
  rw [hb]
  have ha2 : (assign_incr_count b r).m_component_arrays b = some a := ha
  simp only [ha2, he, if_true]

/-- C7 amended: re-assigning a component the entity already holds succeeds,
overwrites exactly the one heap cell, and increments the type's reference
count by one (`uint32`); the signature is unchanged (the bit was already
set), as are slot table, free-list head, bindings, storage pointers, view
counter and view signatures, and `e`'s view memberships are recomputed from
its unchanged signature (hence unchanged whenever they were consistent);
`get` then returns the new value. -/
theorem c7_amended_reassign_effect {V : Type} [Inhabited V] (t e b a : Nat)
    (v : V) (w : World V) (r : Registry V)
    (hb : get_component_bit_fn r t = some b)
    (he : e < ECS_MAX_ENTITY_COUNT)
    (hsig : b ∈ r.m_entity_signatures e)
    (ha : r.m_component_arrays b = some a) :
    (assign t e v w r).1 = none ∧
    (assign t e v w r).2.1.nextAddr = w.nextAddr ∧
    (assign t e v w r).2.1.heap = upd w.heap a (upd (w.heap a) e v) ∧
    resultValue (Registry.get t e (assign t e v w r).2.1 (assign t e v w r).2.2)
      = some v ∧
    (assign t e v w r).2.2.m_components_assigned =
      upd r.m_components_assigned b ((r.m_components_assigned b + 1) % U32) ∧
    (assign t e v w r).2.2.m_entity_signatures = r.m_entity_signatures ∧
    (assign t e v w r).2.2.m_bit_to_component = r.m_bit_to_component ∧
    (assign t e v w r).2.2.m_component_arrays = r.m_component_arrays ∧
    (assign t e v w r).2.2.m_entities = r.m_entities ∧
    (assign t e v w r).2.2.m_first_available_entity_slot
      = r.m_first_available_entity_slot ∧
    (assign t e v w r).2.2.m_view_count = r.m_view_count ∧
    (assign t e v w r).2.2.m_view_signatures = r.m_view_signatures ∧
    (∀ vw es vs, r.m_view_entities vw = some es →
       r.m_view_signatures vw = some vs →
       (assign t e v w r).2.2.m_view_entities vw =
         some (if vs ⊆ r.m_entity_signatures e then insert e es else es.erase e)) ∧
    (∀ vw, r.m_view_entities vw = none →
       (assign t e v w r).2.2.m_view_entities vw = none) := by
  rw [assign_hit w v hb ha he]
  have hins : insert b (r.m_entity_signatures e) = r.m_entity_signatures e :=
    Finset.insert_eq_self.mpr hsig
  have hsigs : (sig_set_bit b e (assign_incr_count b r)).m_entity_signatures
      = r.m_entity_signatures := by
    show upd r.m_entity_signatures e (insert b (r.m_entity_signatures e))
      = r.m_entity_signatures
    rw [hins, upd_self]
  have hsigse : (sig_set_bit b e (assign_incr_count b r)).m_entity_signatures e
      = r.m_entity_signatures e := congrFun hsigs e
  refine ⟨rfl, rfl, rfl, ?_, rfl, ?_, rfl, rfl, rfl, rfl, rfl, rfl, ?_, ?_⟩
  · have hfind : get_component_bit_fn
        (on_entity_signature_change e (sig_set_bit b e (assign_incr_count b r))) t
        = some b := by
      rw [get_bit_congr t rfl]
      exact hb
    have harr' : (on_entity_signature_change e
        (sig_set_bit b e (assign_incr_count b r))).m_component_arrays b
        = some a := ha
    rw [get_eq_ok _ hfind harr' he]
    show some (upd w.heap a (upd (w.heap a) e v) a e) = some v
    rw [upd_apply_same, upd_apply_same]
  · show (on_entity_signature_change e
      (sig_set_bit b e (assign_incr_count b r))).m_entity_signatures
      = r.m_entity_signatures
    exact hsigs
  · intro vw es vs h1 h2
    have h1' : (sig_set_bit b e (assign_incr_count b r)).m_view_entities vw
        = some es := h1
    have h2' : (sig_set_bit b e (assign_incr_count b r)).m_view_signatures vw
        = some vs := h2
    rw [on_change_view_some e vw h1' h2', hsigse]
  · intro vw h1
    have h1' : (sig_set_bit b e (assign_incr_count b r)).m_view_entities vw
        = none := h1
    exact on_change_view_none e vw h1'

/-- Witness for the amended C7: re-assigning value `11` of type `1` on
entity `0`, which already holds that type with count `1`: the count becomes
`2`, the signature is unchanged, and `get` returns `11`. -/
theorem c7_amended_witness :
    (get_component_bit_fn stC7a.2 1 = some 0 ∧
     (0 : Nat) < ECS_MAX_ENTITY_COUNT ∧
     0 ∈ stC7a.2.m_entity_signatures 0 ∧
     stC7a.2.m_component_arrays 0 = some 0) ∧
    ((assign 1 0 11 stC7a.1 stC7a.2).1 = none ∧
     (assign 1 0 11 stC7a.1 stC7a.2).2.2.m_components_assigned =
       upd stC7a.2.m_components_assigned 0
         ((stC7a.2.m_components_assigned 0 + 1) % U32) ∧
     (assign 1 0 11 stC7a.1 stC7a.2).2.2.m_entity_signatures
       = stC7a.2.m_entity_signatures ∧
     resultValue (Registry.get 1 0 (assign 1 0 11 stC7a.1 stC7a.2).2.1
       (assign 1 0 11 stC7a.1 stC7a.2).2.2) = some 11) := by
  have h := c7_amended_reassign_effect 1 0 0 0 11 stC7a.1 stC7a.2 (by decide)
    (by decide) (by decide) (by decide)
  exact ⟨⟨by decide, by decide, by decide, by decide⟩,
    h.1, h.2.2.2.2.1, h.2.2.2.2.2.1, h.2.2.2.1⟩

/-- Invariant of the copy constructor's clone loop: the allocation cursor
only moves forward, every array pointer held by the registry under
construction is a fresh address (allocated at or after `n0`, before the
cursor), and no heap cell below `n0` has been written. -/
def CopyInv {V : Type} (n0 : Nat) (w0 : World V) (acc : World V × Registry V) :
    Prop :=
  n0 ≤ acc.1.nextAddr ∧
  (∀ b aa, acc.2.m_component_arrays b = some aa → n0 ≤ aa ∧ aa < acc.1.nextAddr) ∧
  (∀ aa, aa < n0 → acc.1.heap aa = w0.heap aa)

/-- The clone loop's step, evaluated when `other` owns an array at bit `i`. -/
theorem copy_arrays_step_some {V : Type} {other : Registry V}
    (acc : World V × Registry V) {i a : Nat}
    (h : other.m_component_arrays i = some a) :
    copy_arrays_step other acc i =
      ({ heap := upd acc.1.heap acc.1.nextAddr (acc.1.heap a),
         nextAddr := acc.1.nextAddr + 1 },
       { acc.2 with
         m_component_arrays :=
           upd acc.2.m_component_arrays i (some acc.1.nextAddr) }) := by
  unfold copy_arrays_step World.alloc
  rw [h]

/-- The clone loop's step, evaluated at a null pointer of `other`. -/
theorem copy_arrays_step_none {V : Type} {other : Registry V}
    (acc : World V × Registry V) {i : Nat}
    (h : other.m_component_arrays i = none) :
    copy_arrays_step other acc i = acc := by
  unfold copy_arrays_step
  rw [h]

theorem copy_arrays_step_inv {V : Type} (other : Registry V) (n0 : Nat)
    (w0 : World V) (acc : World V × Registry V) (i : Nat)
    (h : CopyInv n0 w0 acc) : CopyInv n0 w0 (copy_arrays_step other acc i) := by
  obtain ⟨h1, h2, h3⟩ := h
  cases hoi : other.m_component_arrays i with
  | none =>
    rw [copy_arrays_step_none acc hoi]
    exact ⟨h1, h2, h3⟩
  | some a =>
    rw [copy_arrays_step_some acc hoi]
    refine ⟨?_, ?_, ?_⟩
    · show n0 ≤ acc.1.nextAddr + 1
      omega
    · intro b aa hba
      replace hba : upd acc.2.m_component_arrays i (some acc.1.nextAddr) b
          = some aa := hba
      by_cases hbi : b = i
      · subst hbi
        rw [upd_apply_same] at hba
        cases hba
        exact ⟨h1, Nat.lt_succ_self _⟩
      · rw [upd_apply_other _ _ hbi] at hba
        have h4 := h2 b aa hba
        refine ⟨h4.1, ?_⟩
        show aa < acc.1.nextAddr + 1
        omega
    · intro aa haa
      have hne : aa ≠ acc.1.nextAddr := by omega
      show upd acc.1.heap acc.1.nextAddr (acc.1.heap a) aa = w0.heap aa
      rw [upd_apply_other _ _ hne]
      exact h3 aa haa

theorem copy_fold_inv {V : Type} (other : Registry V) (n0 : Nat) (w0 : World V) :
    ∀ (l : List Nat) (acc : World V × Registry V), CopyInv n0 w0 acc →
      CopyInv n0 w0 (l.foldl (copy_arrays_step other) acc) := by
  intro l
  induction l with
  | nil => intro acc h; exact h
  | cons i tl ih =>
    intro acc h
    exact ih (copy_arrays_step other acc i) (copy_arrays_step_inv other n0 w0 acc i h)

/-- The copy constructor's result satisfies the clone-loop invariant with
respect to the pre-copy world. -/
theorem copyRegistry_inv {V : Type} (w : World V) (r : Registry V) :
    CopyInv w.nextAddr w (copyRegistry w r) := by
  apply copy_fold_inv
  exact ⟨Nat.le_refl _, fun b aa h => Option.noConfusion h, fun aa _ => rfl⟩

/-- The `Registry.get` depends on the heap only through the registry's own array
pointers (at existing bits). -/
theorem get_heap_congr {V : Type} (t e : Nat) {w1 w2 : World V} {r : Registry V}
    (h : ∀ b < ECS_MAX_COMPONENT_COUNT, ∀ aa,
      r.m_component_arrays b = some aa → w1.heap aa = w2.heap aa) :
    Registry.get t e w1 r = Registry.get t e w2 r := by
  unfold Registry.get
  cases hb : get_component_bit_fn r t with
  | none => simp only [hb]
  | some b =>
    simp only [hb]
    cases ha : r.m_component_arrays b with
    | none => simp only [ha]
    | some aa =>
      simp only [ha]
      by_cases he : e < ECS_MAX_ENTITY_COUNT
      · simp only [he, if_true]
        rw [h b (get_bit_spec hb).1 aa ha]
      · simp only [he, if_false]

/-- A write through `get`'s reference touches no heap address other than the
written registry's own array cell. -/
theorem write_through_get_heap_frame {V : Type} (t e : Nat) (v : V)
    (w : World V) (c : Registry V) (aa : Nat)
    (h : ∀ b < ECS_MAX_COMPONENT_COUNT, ∀ a',
      c.m_component_arrays b = some a' → a' ≠ aa) :
    (write_through_get t e v w c).heap aa = w.heap aa := by
  unfold write_through_get
  cases hb : get_component_bit_fn c t with
  | none => rfl
  | some b =>
    simp only [hb]
    cases ha : c.m_component_arrays b with
    | none => simp only [ha]
    | some a' =>
      simp only [ha]
      by_cases he : e < ECS_MAX_ENTITY_COUNT
      · simp only [he, if_true]
        show upd w.heap a' (upd (w.heap a') e v) aa = w.heap aa
        exact upd_apply_other _ _ (Ne.symm (h b (get_bit_spec hb).1 a' ha))
      · simp only [he, if_false]

/-- The `assign` writes the heap only at the written registry's own array cell
or at the freshly allocated address `w.nextAddr`. -/
theorem assign_heap_frame {V : Type} [Inhabited V] (t e : Nat) (v : V)
    (w : World V) (R : Registry V) (aa : Nat)
    (haa : aa < w.nextAddr)
    (h : ∀ b < ECS_MAX_COMPONENT_COUNT, ∀ a',
      R.m_component_arrays b = some a' → a' ≠ aa) :
    (assign t e v w R).2.1.heap aa = w.heap aa := by
  unfold assign create_component_bit_fn World.alloc
  cases hb : get_component_bit_fn R t with
  | some b =>
    simp only [hb]
    cases ha : (assign_incr_count b R).m_component_arrays b with
    | none => simp only [ha]
    | some a' =>
      simp only [ha]
      have ha' : R.m_component_arrays b = some a' := ha
      by_cases he : e < ECS_MAX_ENTITY_COUNT
      · simp only [he, if_true]
        show upd w.heap a' (upd (w.heap a') e v) aa = w.heap aa
        exact upd_apply_other _ _ (Ne.symm (h b (get_bit_spec hb).1 a' ha'))
      · simp only [he, if_false]
  | none =>
    simp only [hb]
    cases hff : first_free_bit R with
    | none => simp only [hff]
    | some b =>
      simp only [hff]
      have harr : (assign_incr_count b
          ({ R with
             m_bit_to_component := upd R.m_bit_to_component b t,
             m_component_arrays :=
               upd R.m_component_arrays b (some w.nextAddr) }
            : Registry V)).m_component_arrays b
          = some w.nextAddr := upd_apply_same _ _ _
      simp only [harr]
      have hne : aa ≠ w.nextAddr := by omega
      by_cases he : e < ECS_MAX_ENTITY_COUNT
      · simp only [he, if_true]
        show upd (upd w.heap w.nextAddr (fun _ => default)) w.nextAddr
            (upd (upd w.heap w.nextAddr (fun _ => default) w.nextAddr) e v) aa
          = w.heap aa
        rw [upd_apply_other _ _ hne, upd_apply_other _ _ hne]
      · simp only [he, if_false]
        show upd w.heap w.nextAddr (fun _ => default) aa = w.heap aa
        exact upd_apply_other _ _ hne

/-- C8: confirmed.  In a well-formed world (every array pointer of `r` names
an already-allocated heap cell), the copy constructor clones storage into
fresh cells, so mutating any component value through the copy — by `assign`
or by writing through the reference `get` returns — changes no value `get`
reads through the original, and vice versa. -/
theorem c8_copy_deep_isolation {V : Type} [Inhabited V] (w : World V)
    (r : Registry V)
    (hv : ∀ b < ECS_MAX_COMPONENT_COUNT, ∀ aa,
      r.m_component_arrays b = some aa → aa < w.nextAddr) :
    (∀ t e v t' e', Registry.get t' e'
        (write_through_get t e v (copyRegistry w r).1 (copyRegistry w r).2) r
      = Registry.get t' e' (copyRegistry w r).1 r) ∧
    (∀ t e v t' e', Registry.get t' e'
        (write_through_get t e v (copyRegistry w r).1 r) (copyRegistry w r).2
      = Registry.get t' e' (copyRegistry w r).1 (copyRegistry w r).2) ∧
    (∀ t e v t' e', Registry.get t' e'
        (assign t e v (copyRegistry w r).1 (copyRegistry w r).2).2.1 r
      = Registry.get t' e' (copyRegistry w r).1 r) ∧
    (∀ t e v t' e', Registry.get t' e'
        (assign t e v (copyRegistry w r).1 r).2.1 (copyRegistry w r).2
      = Registry.get t' e' (copyRegistry w r).1 (copyRegistry w r).2) := by
  obtain ⟨hn, hfresh, hpres⟩ := copyRegistry_inv w r
  refine ⟨?_, ?_, ?_, ?_⟩
  · intro t e v t' e'
    apply get_heap_congr
    intro b hb aa ha
    apply write_through_get_heap_frame
    intro b' hb' a' ha'
    have h1 := (hfresh b' a' ha').1
    have h2 := hv b hb aa ha
    omega
  · intro t e v t' e'
    apply get_heap_congr
    intro b hb aa ha
    apply write_through_get_heap_frame
    intro b' hb' a' ha'
    have h1 := hv b' hb' a' ha'
    have h2 := (hfresh b aa ha).1
    omega
  · intro t e v t' e'
    apply get_heap_congr
    intro b hb aa ha
    have h2 := hv b hb aa ha
    apply assign_heap_frame
    · omega
    · intro b' hb' a' ha'
      have h1 := (hfresh b' a' ha').1
      omega
  · intro t e v t' e'
    apply get_heap_congr
    intro b hb aa ha
    have h2 := hfresh b aa ha
    apply assign_heap_frame
    · omega
    · intro b' hb' a' ha'
      have h1 := hv b' hb' a' ha'
      omega

/-- Witness for C8: the one-entity, one-component registry of the C10
scenario, whose single array lives at heap address `0` below the allocation
cursor `1`. -/
theorem c8_copy_deep_isolation_witness :
    (∀ b < ECS_MAX_COMPONENT_COUNT, ∀ aa,
      stC10.2.m_component_arrays b = some aa → aa < stC10.1.nextAddr) ∧
    ((∀ t e v t' e', Registry.get t' e'
        (write_through_get t e v (copyRegistry stC10.1 stC10.2).1
          (copyRegistry stC10.1 stC10.2).2) stC10.2
      = Registry.get t' e' (copyRegistry stC10.1 stC10.2).1 stC10.2) ∧
    (∀ t e v t' e', Registry.get t' e'
        (write_through_get t e v (copyRegistry stC10.1 stC10.2).1 stC10.2)
          (copyRegistry stC10.1 stC10.2).2
      = Registry.get t' e' (copyRegistry stC10.1 stC10.2).1
          (copyRegistry stC10.1 stC10.2).2) ∧
    (∀ t e v t' e', Registry.get t' e'
        (assign t e v (copyRegistry stC10.1 stC10.2).1
          (copyRegistry stC10.1 stC10.2).2).2.1 stC10.2
      = Registry.get t' e' (copyRegistry stC10.1 stC10.2).1 stC10.2) ∧
    (∀ t e v t' e', Registry.get t' e'
        (assign t e v (copyRegistry stC10.1 stC10.2).1 stC10.2).2.1
          (copyRegistry stC10.1 stC10.2).2
      = Registry.get t' e' (copyRegistry stC10.1 stC10.2).1
          (copyRegistry stC10.1 stC10.2).2)) := by
  have hD : ∀ b < ECS_MAX_COMPONENT_COUNT,
      (stC10.2.m_component_arrays b).getD 0 < stC10.1.nextAddr := by decide
  have hv : ∀ b < ECS_MAX_COMPONENT_COUNT, ∀ aa,
      stC10.2.m_component_arrays b = some aa → aa < stC10.1.nextAddr := by
    intro b hb aa ha
    have hx := hD b hb
    rw [ha] at hx
    exact hx
  exact ⟨hv, c8_copy_deep_isolation stC10.1 stC10.2 hv⟩

/-- Operations that neither overwrite nor remove component type `t` on
entity `e`, nor destroy `e` (the "intervening operations" the round-trip
claim quantifies over). -/
def AvoidsTE {V : Type} (t e : Nat) : Op V → Prop
  | .assignC t' e' _ => ¬(t' = t ∧ e' = e)
  | .removeC t' e' => ¬(t' = t ∧ e' = e)
  | .destroyE e' => e' ≠ e
  | _ => True

/-- Soundness of a state for the round trip of component type `t` (bound at
bit `b`, storage at address `a`, value `v` stored for entity `e`), with
enough reference-count headroom for `k` further operations:
`t` is bound exactly at `b`, `e` holds the bit, the storage address is
allocated, unaliased by any other bit's array, and holds `v` at `e`'s cell,
and the `uint32` reference count dominates the holder count and cannot wrap
within `k` more increments. -/
structure RoundTripInv {V : Type} (t b e a : Nat) (v : V) (k : Nat)
    (w : World V) (r : Registry V) : Prop where
  ht : 0 < t
  hblt : b < ECS_MAX_COMPONENT_COUNT
  he : e < ECS_MAX_ENTITY_COUNT
  hbt : r.m_bit_to_component b = t
  huniq : ∀ b' < ECS_MAX_COMPONENT_COUNT, r.m_bit_to_component b' = t → b' = b
  hsig : b ∈ r.m_entity_signatures e
  harr : r.m_component_arrays b = some a
  haddr : a < w.nextAddr
  hval : w.heap a e = v
  halias : ∀ b' < ECS_MAX_COMPONENT_COUNT, ∀ a', b' ≠ b →
    r.m_component_arrays b' = some a' → a' ≠ a
  hcount : holders r b ≤ r.m_components_assigned b
  hbound : r.m_components_assigned b + k < U32

theorem inv_weaken {V : Type} {t b e a : Nat} {v : V} {k : Nat}
    {w : World V} {r : Registry V}
    (hI : RoundTripInv t b e a v (k + 1) w r) :
    RoundTripInv t b e a v k w r :=
  { hI with hbound := by have := hI.hbound; omega }

/-- Transport of the invariant along a state change that preserves the
binding table, arrays, counters and the heap, keeps `e` holding bit `b`,
and does not increase the holder count of `b`. -/
theorem inv_preserve {V : Type} {t b e a : Nat} {v : V} {k : Nat}
    {w w' : World V} {r r' : Registry V}
    (hI : RoundTripInv t b e a v (k + 1) w r)
    (hbit : r'.m_bit_to_component = r.m_bit_to_component)
    (harr : r'.m_component_arrays = r.m_component_arrays)
    (hcnt : r'.m_components_assigned = r.m_components_assigned)
    (hsige : b ∈ r'.m_entity_signatures e)
    (hhold : holders r' b ≤ holders r b)
    (hw : w' = w) :
    RoundTripInv t b e a v k w' r' := by
  subst hw
  refine
    { ht := hI.ht, hblt := hI.hblt, he := hI.he,
      hbt := by rw [hbit]; exact hI.hbt,
      huniq := fun b' h1 h2 => hI.huniq b' h1 (by rw [hbit] at h2; exact h2),
      hsig := hsige,
      harr := by rw [harr]; exact hI.harr,
      haddr := hI.haddr, hval := hI.hval,
      halias := fun b' hb' a' hne ha' =>
        hI.halias b' hb' a' hne (by rw [harr] at ha'; exact ha'),
      hcount := ?_, hbound := ?_ }
  · rw [hcnt]
    exact le_trans hhold hI.hcount
  · rw [hcnt]
    have := hI.hbound
    omega

theorem holders_congr {V : Type} {r r' : Registry V} {b : Nat}
    (h : ∀ x, b ∈ r'.m_entity_signatures x ↔ b ∈ r.m_entity_signatures x) :
    holders r' b = holders r b := by
  unfold holders
  have hfe : (Finset.range ECS_MAX_ENTITY_COUNT).filter
        (fun x => b ∈ r'.m_entity_signatures x)
      = (Finset.range ECS_MAX_ENTITY_COUNT).filter
        (fun x => b ∈ r.m_entity_signatures x) := by
    ext x
    simp only [Finset.mem_filter]
    exact and_congr_right (fun _ => h x)
  rw [hfe]

/-- Setting any bit on one entity raises the holder count of `b` by at most
one. -/
theorem holders_insert_le {V : Type} {r r' : Registry V} {b idx e' : Nat}
    (hs : r'.m_entity_signatures =
      upd r.m_entity_signatures e' (insert idx (r.m_entity_signatures e'))) :
    holders r' b ≤ holders r b + 1 := by
  have hsub : (Finset.range ECS_MAX_ENTITY_COUNT).filter
        (fun x => b ∈ r'.m_entity_signatures x) ⊆
      insert e' ((Finset.range ECS_MAX_ENTITY_COUNT).filter
        (fun x => b ∈ r.m_entity_signatures x)) := by
    intro x hx
    rw [Finset.mem_filter] at hx
    by_cases hxe : x = e'
    · subst hxe
      exact Finset.mem_insert_self _ _
    · refine Finset.mem_insert_of_mem (Finset.mem_filter.mpr ⟨hx.1, ?_⟩)
      have hb' := hx.2
      rw [hs, upd_apply_other _ _ hxe] at hb'
      exact hb'
  calc holders r' b ≤ (insert e' ((Finset.range ECS_MAX_ENTITY_COUNT).filter
        (fun x => b ∈ r.m_entity_signatures x))).card := Finset.card_le_card hsub
    _ ≤ holders r b + 1 := Finset.card_insert_le _ _

/-- Setting or clearing a bit other than `b` leaves `b`'s holder count
unchanged (insert form). -/
theorem holders_insert_other {V : Type} {r r' : Registry V} {b idx e' : Nat}
    (hib : idx ≠ b)
    (hs : r'.m_entity_signatures =
      upd r.m_entity_signatures e' (insert idx (r.m_entity_signatures e'))) :
    holders r' b = holders r b := by
  apply holders_congr
  intro x
  rw [hs]
  by_cases hxe : x = e'
  · subst hxe
    rw [upd_apply_same]
    have hbi : b ≠ idx := Ne.symm hib
    simp [Finset.mem_insert, hbi]
  · rw [upd_apply_other _ _ hxe]

/-- Clearing a bit other than `b` leaves `b`'s holder count unchanged. -/
theorem holders_erase_other {V : Type} {r r' : Registry V} {b idx e' : Nat}
    (hib : idx ≠ b)
    (hs : r'.m_entity_signatures =
      upd r.m_entity_signatures e' ((r.m_entity_signatures e').erase idx)) :
    holders r' b = holders r b := by
  apply holders_congr
  intro x
  rw [hs]
  by_cases hxe : x = e'
  · subst hxe
    rw [upd_apply_same]
    simp [Finset.mem_erase, Ne.symm hib]
  · rw [upd_apply_other _ _ hxe]

/-- Clearing bit `b` on a holder `e' < capacity` strictly decreases the
holder count. -/
theorem holders_erase_self {V : Type} {r r' : Registry V} {b e' : Nat}
    (he' : e' < ECS_MAX_ENTITY_COUNT)
    (hbe' : b ∈ r.m_entity_signatures e')
    (hs : r'.m_entity_signatures =
      upd r.m_entity_signatures e' ((r.m_entity_signatures e').erase b)) :
    holders r' b + 1 ≤ holders r b := by
  have hmem : e' ∈ (Finset.range ECS_MAX_ENTITY_COUNT).filter
      (fun x => b ∈ r.m_entity_signatures x) :=
    Finset.mem_filter.mpr ⟨Finset.mem_range.mpr he', hbe'⟩
  have hsub : (Finset.range ECS_MAX_ENTITY_COUNT).filter
        (fun x => b ∈ r'.m_entity_signatures x) ⊆
      ((Finset.range ECS_MAX_ENTITY_COUNT).filter
        (fun x => b ∈ r.m_entity_signatures x)).erase e' := by
    intro x hx
    rw [Finset.mem_filter] at hx
    by_cases hxe : x = e'
    · exfalso
      subst hxe
      have hb' := hx.2
      rw [hs, upd_apply_same] at hb'
      exact (Finset.mem_erase.mp hb').1 rfl
    · refine Finset.mem_erase.mpr ⟨hxe, Finset.mem_filter.mpr ⟨hx.1, ?_⟩⟩
      have hb' := hx.2
      rw [hs, upd_apply_other _ _ hxe] at hb'
      exact hb'
  have h1 : holders r' b ≤ holders r b - 1 := by
    calc holders r' b ≤ _ := Finset.card_le_card hsub
      _ = holders r b - 1 := Finset.card_erase_of_mem hmem
  have h2 : 1 ≤ holders r b := Finset.card_pos.mpr ⟨e', hmem⟩
  omega

/-- Resetting one entity's signature cannot increase `b`'s holder count. -/
theorem holders_reset_le {V : Type} {r r' : Registry V} {b e' : Nat}
    (hs : r'.m_entity_signatures = upd r.m_entity_signatures e' ∅) :
    holders r' b ≤ holders r b := by
  apply Finset.card_le_card
  intro x hx
  rw [Finset.mem_filter] at hx
  refine Finset.mem_filter.mpr ⟨hx.1, ?_⟩
  have hb' := hx.2
  by_cases hxe : x = e'
  · exfalso
    subst hxe
    rw [hs, upd_apply_same] at hb'
    exact Finset.not_mem_empty b hb'
  · rw [hs, upd_apply_other _ _ hxe] at hb'
    exact hb'

/-- Two distinct in-range holders give a holder count of at least two. -/
theorem holders_two {V : Type} {r : Registry V} {b x y : Nat}
    (hx : x < ECS_MAX_ENTITY_COUNT) (hy : y < ECS_MAX_ENTITY_COUNT)
    (hxy : x ≠ y)
    (hbx : b ∈ r.m_entity_signatures x) (hby : b ∈ r.m_entity_signatures y) :
    2 ≤ holders r b := by
  have hsub : ({x, y} : Finset Nat) ⊆ (Finset.range ECS_MAX_ENTITY_COUNT).filter
      (fun z => b ∈ r.m_entity_signatures z) := by
    intro z hz
    rcases Finset.mem_insert.mp hz with hz | hz
    · subst hz
      exact Finset.mem_filter.mpr ⟨Finset.mem_range.mpr hx, hbx⟩
    · rw [Finset.mem_singleton.mp hz]
      exact Finset.mem_filter.mpr ⟨Finset.mem_range.mpr hy, hby⟩
  have hcard : ({x, y} : Finset Nat).card = 2 := Finset.card_pair hxy
  calc 2 = ({x, y} : Finset Nat).card := hcard.symm
    _ ≤ holders r b := Finset.card_le_card hsub

/-- The `create_entity` touches only the slot table and the free-list head. -/
theorem create_entity_frame {V : Type} (r : Registry V) :
    (create_entity r).2.m_bit_to_component = r.m_bit_to_component ∧
    (create_entity r).2.m_component_arrays = r.m_component_arrays ∧
    (create_entity r).2.m_components_assigned = r.m_components_assigned ∧
    (create_entity r).2.m_entity_signatures = r.m_entity_signatures := by
  unfold create_entity
  by_cases h1 : r.m_first_available_entity_slot < ECS_MAX_ENTITY_COUNT <;>
    by_cases h2 : r.m_first_available_entity_slot > 0 <;>
      simp [h1, h2]

/-- The `create_view` touches only the view maps and the view counter. -/
theorem create_view_frame {V : Type} (ts : List Nat) (r : Registry V) :
    (create_view ts r).2.m_bit_to_component = r.m_bit_to_component ∧
    (create_view ts r).2.m_component_arrays = r.m_component_arrays ∧
    (create_view ts r).2.m_components_assigned = r.m_components_assigned ∧
    (create_view ts r).2.m_entity_signatures = r.m_entity_signatures := by
  unfold create_view
  by_cases h1 : ts.isEmpty
  · simp [h1]
  · simp only [h1, if_false, Bool.false_eq_true]
    cases hvs : view_signature r ts with
    | error msg => simp [hvs]
    | ok signature =>
      cases hf : (List.range r.m_view_count).find?
          (fun v => r.m_view_signatures v = some signature) with
      | some v => simp [hf]
      | none => simp [hf]

/-- The `destroy_view` touches only the view maps. -/
theorem destroy_view_frame {V : Type} (h : Nat) (r : Registry V) :
    (destroy_view h r).2.m_bit_to_component = r.m_bit_to_component ∧
    (destroy_view h r).2.m_component_arrays = r.m_component_arrays ∧
    (destroy_view h r).2.m_components_assigned = r.m_components_assigned ∧
    (destroy_view h r).2.m_entity_signatures = r.m_entity_signatures := by
  unfold destroy_view
  by_cases h1 : (r.m_view_signatures h).isSome <;> simp [h1]

/-- The `destroy_entity` touches only the slot table, the free-list head, and —
on the success path — the destroyed entity's signature, which it resets. -/
theorem destroy_entity_frame {V : Type} (e' : Nat) (r : Registry V) :
    (destroy_entity e' r).2.m_bit_to_component = r.m_bit_to_component ∧
    (destroy_entity e' r).2.m_component_arrays = r.m_component_arrays ∧
    (destroy_entity e' r).2.m_components_assigned = r.m_components_assigned ∧
    (destroy_entity e' r).2.m_view_entities = r.m_view_entities ∧
    ((destroy_entity e' r).2.m_entity_signatures = r.m_entity_signatures ∨
     (destroy_entity e' r).2.m_entity_signatures
       = upd r.m_entity_signatures e' ∅) := by
  unfold destroy_entity
  by_cases h1 : e' < ECS_MAX_ENTITY_COUNT
  · simp only [h1, if_true]
    by_cases h2 : e' < r.m_first_available_entity_slot
    · simp only [h2, if_true]
      by_cases h3 : e' + 1 < ECS_MAX_ENTITY_COUNT
      · by_cases h4 : 0 < e' <;> simp [h3, h4]
      · simp [h3]
    · simp only [h2, if_false]
      cases hs : scan_free r e' (ECS_MAX_ENTITY_COUNT + 1)
          r.m_first_available_entity_slot with
      | error msg => simp [hs]
      | ok i =>
        by_cases h5 : i < ECS_MAX_ENTITY_COUNT
        · simp only [hs, h5, if_true]
          by_cases h3 : e' + 1 < ECS_MAX_ENTITY_COUNT
          · by_cases h4 : 0 < e' <;> simp [h3, h4]
          · simp [h3]
        · simp [hs, h5]
  · simp [h1]

theorem inv_step_createE {V : Type} {t b e a : Nat} {v : V} {k : Nat}
    {w : World V} {r : Registry V}
    (hI : RoundTripInv t b e a v (k + 1) w r) :
    RoundTripInv t b e a v k w (create_entity r).2 := by
  obtain ⟨h1, h2, h3, h4⟩ := create_entity_frame r
  refine inv_preserve hI h1 h2 h3 ?_ ?_ rfl
  · rw [h4]; exact hI.hsig
  · exact le_of_eq (holders_congr (fun x => by rw [h4]))

theorem inv_step_createV {V : Type} {t b e a : Nat} {v : V} {k : Nat}
    {w : World V} {r : Registry V} (ts : List Nat)
    (hI : RoundTripInv t b e a v (k + 1) w r) :
    RoundTripInv t b e a v k w (create_view ts r).2 := by
  obtain ⟨h1, h2, h3, h4⟩ := create_view_frame ts r
  refine inv_preserve hI h1 h2 h3 ?_ ?_ rfl
  · rw [h4]; exact hI.hsig
  · exact le_of_eq (holders_congr (fun x => by rw [h4]))

theorem inv_step_destroyV {V : Type} {t b e a : Nat} {v : V} {k : Nat}
    {w : World V} {r : Registry V} (h : Nat)
    (hI : RoundTripInv t b e a v (k + 1) w r) :
    RoundTripInv t b e a v k w (destroy_view h r).2 := by
  obtain ⟨h1, h2, h3, h4⟩ := destroy_view_frame h r
  refine inv_preserve hI h1 h2 h3 ?_ ?_ rfl
  · rw [h4]; exact hI.hsig
  · exact le_of_eq (holders_congr (fun x => by rw [h4]))

theorem inv_step_destroyE {V : Type} {t b e a : Nat} {v : V} {k : Nat}
    {w : World V} {r : Registry V} (e' : Nat) (hne : e' ≠ e)
    (hI : RoundTripInv t b e a v (k + 1) w r) :
    RoundTripInv t b e a v k w (destroy_entity e' r).2 := by
  obtain ⟨h1, h2, h3, -, h5⟩ := destroy_entity_frame e' r
  rcases h5 with h5 | h5
  · refine inv_preserve hI h1 h2 h3 ?_ ?_ rfl
    · rw [h5]; exact hI.hsig
    · exact le_of_eq (holders_congr (fun x => by rw [h5]))
  · refine inv_preserve hI h1 h2 h3 ?_ ?_ rfl
    · rw [h5, upd_apply_other _ _ (Ne.symm hne)]
      exact hI.hsig
    · exact holders_reset_le h5

/-- Either `remove` rejects and leaves the registry unchanged, or its
validation passed. -/
theorem remove_cases {V : Type} (t' e' : Nat) (r : Registry V) :
    (remove t' e' r).2 = r ∨
    ∃ idx, get_component_bit_fn r t' = some idx ∧
      e' < ECS_MAX_ENTITY_COUNT ∧ idx ∈ r.m_entity_signatures e' := by
  cases hb : get_component_bit_fn r t' with
  | none =>
    left
    unfold remove
    rw [hb]
  | some idx =>
    by_cases he : e' < ECS_MAX_ENTITY_COUNT
    · by_cases hs : idx ∈ r.m_entity_signatures e'
      · exact Or.inr ⟨idx, rfl, he, hs⟩
      · left
        unfold remove
        rw [hb]
        simp [he, hs]
    · left
      unfold remove
      rw [hb]
      simp [he]

theorem inv_step_removeC {V : Type} {t b e a : Nat} {v : V} {k : Nat}
    {w : World V} {r : Registry V} (t' e' : Nat)
    (hav : ¬(t' = t ∧ e' = e))
    (hI : RoundTripInv t b e a v (k + 1) w r) :
    RoundTripInv t b e a v k w (remove t' e' r).2 := by
  rcases remove_cases t' e' r with hsame | ⟨idx, hb', he', hs'⟩
  · rw [hsame]
    exact inv_weaken hI
  · obtain ⟨-, hbit, harr, hcnt, hsigf, -, -, -, -⟩ := remove_hit_fields hb' he' hs'
    have hidxlt : idx < ECS_MAX_COMPONENT_COUNT := (get_bit_spec hb').1
    have hidxt : r.m_bit_to_component idx = t' := (get_bit_spec hb').2
    by_cases hib : idx = b
    · -- removal of the tracked bit, necessarily on a different entity
      subst hib
      have ht' : t' = t := by rw [hI.hbt] at hidxt; exact hidxt.symm
      have hee : e' ≠ e := fun hcontra => hav ⟨ht', hcontra⟩
      have h2h : 2 ≤ holders r idx :=
        holders_two he' hI.he hee hs' hI.hsig
      have h2c : 2 ≤ r.m_components_assigned idx := le_trans h2h hI.hcount
      have hlt : r.m_components_assigned idx < U32 := by
        have := hI.hbound; omega
      have hdec : (r.m_components_assigned idx + (U32 - 1)) % U32
          = r.m_components_assigned idx - 1 := dec_mod_of_pos (by omega) hlt
      have hz : (r.m_components_assigned idx + (U32 - 1)) % U32 ≠ 0 := by
        rw [hdec]; omega
      rw [if_neg hz] at hbit harr
      refine
        { ht := hI.ht, hblt := hI.hblt, he := hI.he,
          hbt := by rw [hbit]; exact hI.hbt,
          huniq := fun b' h1 h2 => hI.huniq b' h1 (by rw [hbit] at h2; exact h2),
          hsig := by
            rw [hsigf, upd_apply_other _ _ (Ne.symm hee)]
            exact hI.hsig,
          harr := by rw [harr]; exact hI.harr,
          haddr := hI.haddr, hval := hI.hval,
          halias := fun b' hb'2 a' hne ha' =>
            hI.halias b' hb'2 a' hne (by rw [harr] at ha'; exact ha'),
          hcount := ?_, hbound := ?_ }
      · have hh := holders_erase_self he' hs' hsigf
        have hcd := hI.hcount
        rw [hcnt, upd_apply_same, hdec]
        omega
      · rw [hcnt, upd_apply_same, hdec]
        have := hI.hbound
        omega
    · -- removal of an unrelated bit
      have hbitb : (remove t' e' r).2.m_bit_to_component b = t := by
        rw [hbit]
        by_cases hz : (r.m_components_assigned idx + (U32 - 1)) % U32 = 0
        · rw [if_pos hz, upd_apply_other _ _ (Ne.symm hib)]
          exact hI.hbt
        · rw [if_neg hz]
          exact hI.hbt
      have harrb : (remove t' e' r).2.m_component_arrays b = some a := by
        rw [harr]
        by_cases hz : (r.m_components_assigned idx + (U32 - 1)) % U32 = 0
        · rw [if_pos hz, upd_apply_other _ _ (Ne.symm hib)]
          exact hI.harr
        · rw [if_neg hz]
          exact hI.harr
      refine
        { ht := hI.ht, hblt := hI.hblt, he := hI.he,
          hbt := hbitb,
          huniq := ?_,
          hsig := ?_,
          harr := harrb,
          haddr := hI.haddr, hval := hI.hval,
          halias := ?_,
          hcount := ?_, hbound := ?_ }
      · intro b' h1 h2
        rw [hbit] at h2
        by_cases hz : (r.m_components_assigned idx + (U32 - 1)) % U32 = 0
        · rw [if_pos hz] at h2
          by_cases hbi' : b' = idx
          · subst hbi'
            rw [upd_apply_same] at h2
            exact absurd h2 (by have := hI.ht; omega)
          · rw [upd_apply_other _ _ hbi'] at h2
            exact hI.huniq b' h1 h2
        · rw [if_neg hz] at h2
          exact hI.huniq b' h1 h2
      · rw [hsigf]
        by_cases hee : e = e'
        · subst hee
          rw [upd_apply_same]
          exact Finset.mem_erase.mpr ⟨Ne.symm hib, hI.hsig⟩
        · rw [upd_apply_other _ _ hee]
          exact hI.hsig
      · intro b' hb'2 a' hne ha'
        rw [harr] at ha'
        by_cases hz : (r.m_components_assigned idx + (U32 - 1)) % U32 = 0
        · rw [if_pos hz] at ha'
          by_cases hbi' : b' = idx
          · subst hbi'
            rw [upd_apply_same] at ha'
            exact Option.noConfusion ha'
          · rw [upd_apply_other _ _ hbi'] at ha'
            exact hI.halias b' hb'2 a' hne ha'
        · rw [if_neg hz] at ha'
          exact hI.halias b' hb'2 a' hne ha'
      · rw [hcnt, upd_apply_other _ _ (Ne.symm hib)]
        have hh : holders (remove t' e' r).2 b = holders r b :=
          holders_erase_other hib hsigf
        rw [hh]
        exact hI.hcount
      · rw [hcnt, upd_apply_other _ _ (Ne.symm hib)]
        have := hI.hbound
        omega

/-- A successful free-bit scan yields an in-range unbound bit. -/
theorem first_free_spec {V : Type} {r : Registry V} {idx : Nat}
    (h : first_free_bit r = some idx) :
    idx < ECS_MAX_COMPONENT_COUNT ∧ r.m_bit_to_component idx = 0 := by
  unfold first_free_bit at h
  have h1 := List.mem_of_find?_eq_some h
  have h2 := List.find?_some h
  exact ⟨List.mem_range.mp h1, by simpa using h2⟩

/-- The `gcb = none` means no in-range bit carries the hash. -/
theorem get_bit_none_forall {V : Type} {r : Registry V} {t : Nat}
    (h : get_component_bit_fn r t = none) :
    ∀ b' < ECS_MAX_COMPONENT_COUNT, r.m_bit_to_component b' ≠ t := by
  intro b' hb' hbt
  have := List.find?_eq_none.mp h b' (List.mem_range.mpr hb')
  simp [hbt] at this

/-- The `assign` on a bound bit whose array pointer is null: the count is
incremented, then the `static_cast` dereferences `nullptr`. -/
theorem assign_null {V : Type} [Inhabited V] {t : Nat} (e : Nat) (data : V)
    (w : World V) {r : Registry V} {idx : Nat}
    (hb : get_component_bit_fn r t = some idx)
    (ha : r.m_component_arrays idx = none) :
    assign t e data w r = (some nullErr, w, assign_incr_count idx r) := by
  unfold assign
  rw [hb]
  have ha2 : (assign_incr_count idx r).m_component_arrays idx = none := ha
  simp only [ha2]

/-- The `assign` on a bound bit with an out-of-range entity: the count is
incremented, then `m_component_seq.at(entity)` throws. -/
theorem assign_oob {V : Type} [Inhabited V] {t e : Nat} (data : V)
    (w : World V) {r : Registry V} {idx a'' : Nat}
    (hb : get_component_bit_fn r t = some idx)
    (ha : r.m_component_arrays idx = some a'')
    (he : ¬ e < ECS_MAX_ENTITY_COUNT) :
    assign t e data w r = (some atErr, w, assign_incr_count idx r) := by
  unfold assign
  rw [hb]
  have ha2 : (assign_incr_count idx r).m_component_arrays idx = some a'' := ha
  simp only [ha2, he, if_false]

/-- The `assign` of an unbound type when all 64 bits are taken: the free-bit
scan runs off the array and throws before mutating anything. -/
theorem assign_nofree {V : Type} [Inhabited V] {t e : Nat} (data : V)
    (w : World V) {r : Registry V}
    (hb : get_component_bit_fn r t = none)
    (hff : first_free_bit r = none) :
    assign t e data w r = (some atErr, w, r) := by
  unfold assign create_component_bit_fn
  rw [hb, hff]

/-- The registry state produced by `create_component_bit` when bit `idx` is
the first free one. -/
def created_bit_state {V : Type} (t idx : Nat) (w : World V) (r : Registry V) :
    Registry V :=
  { r with
    m_bit_to_component := upd r.m_bit_to_component idx t,
    m_component_arrays := upd r.m_component_arrays idx (some w.nextAddr) }

/-- The `assign` of an unbound type with a free bit and an in-range entity:
bind, allocate, count, write, set the bit, refresh views. -/
theorem assign_fresh {V : Type} [Inhabited V] {t e : Nat} (data : V)
    (w : World V) {r : Registry V} {idx : Nat}
    (hb : get_component_bit_fn r t = none)
    (hff : first_free_bit r = some idx)
    (he : e < ECS_MAX_ENTITY_COUNT) :
    assign t e data w r =
      (none,
       { heap := upd (upd w.heap w.nextAddr (fun _ => default)) w.nextAddr
           (upd (upd w.heap w.nextAddr (fun _ => default) w.nextAddr) e data),
         nextAddr := w.nextAddr + 1 },
       on_entity_signature_change e
         (sig_set_bit idx e (assign_incr_count idx (created_bit_state t idx w r)))) := by
  unfold assign create_component_bit_fn World.alloc created_bit_state
  rw [hb, hff]
  have ha2 : (assign_incr_count idx
      ({ r with
         m_bit_to_component := upd r.m_bit_to_component idx t,
         m_component_arrays :=
           upd r.m_component_arrays idx (some w.nextAddr) } : Registry V)).m_component_arrays idx
      = some w.nextAddr := upd_apply_same _ _ _
  simp only [ha2, he, if_true]

/-- The `assign` of an unbound type with a free bit but an out-of-range entity:
bind, allocate and count happen, then the cell write throws. -/
theorem assign_fresh_oob {V : Type} [Inhabited V] {t e : Nat} (data : V)
    (w : World V) {r : Registry V} {idx : Nat}
    (hb : get_component_bit_fn r t = none)
    (hff : first_free_bit r = some idx)
    (he : ¬ e < ECS_MAX_ENTITY_COUNT) :
    assign t e data w r =
      (some atErr,
       { heap := upd w.heap w.nextAddr (fun _ => default),
         nextAddr := w.nextAddr + 1 },
       assign_incr_count idx (created_bit_state t idx w r)) := by
  unfold assign create_component_bit_fn World.alloc created_bit_state
  rw [hb, hff]
  have ha2 : (assign_incr_count idx
      ({ r with
         m_bit_to_component := upd r.m_bit_to_component idx t,
         m_component_arrays :=
           upd r.m_component_arrays idx (some w.nextAddr) } : Registry V)).m_component_arrays idx
      = some w.nextAddr := upd_apply_same _ _ _
  simp only [ha2, he, if_false]

/-- Incrementing any bit's reference count preserves the invariant (one unit
of headroom pays for the increment). -/
theorem inv_incr {V : Type} {t b e a : Nat} {v : V} {k : Nat}
    {w : World V} {r : Registry V} (idx : Nat)
    (hI : RoundTripInv t b e a v (k + 1) w r) :
    RoundTripInv t b e a v k w (assign_incr_count idx r) := by
  by_cases hib : idx = b
  · subst hib
    have hlt : r.m_components_assigned idx + 1 < U32 := by
      have := hI.hbound; omega
    have hm : (r.m_components_assigned idx + 1) % U32
        = r.m_components_assigned idx + 1 := Nat.mod_eq_of_lt hlt
    refine
      { ht := hI.ht, hblt := hI.hblt, he := hI.he, hbt := hI.hbt,
        huniq := hI.huniq, hsig := hI.hsig, harr := hI.harr,
        haddr := hI.haddr, hval := hI.hval, halias := hI.halias,
        hcount := ?_, hbound := ?_ }
    · show holders r idx ≤
        upd r.m_components_assigned idx ((r.m_components_assigned idx + 1) % U32) idx
      rw [upd_apply_same, hm]
      have := hI.hcount
      omega
    · show upd r.m_components_assigned idx
        ((r.m_components_assigned idx + 1) % U32) idx + k < U32
      rw [upd_apply_same, hm]
      have := hI.hbound
      omega
  · refine
      { ht := hI.ht, hblt := hI.hblt, he := hI.he, hbt := hI.hbt,
        huniq := hI.huniq, hsig := hI.hsig, harr := hI.harr,
        haddr := hI.haddr, hval := hI.hval, halias := hI.halias,
        hcount := ?_, hbound := ?_ }
    · show holders r b ≤
        upd r.m_components_assigned idx ((r.m_components_assigned idx + 1) % U32) b
      rw [upd_apply_other _ _ (Ne.symm hib)]
      exact hI.hcount
    · show upd r.m_components_assigned idx
        ((r.m_components_assigned idx + 1) % U32) b + k < U32
      rw [upd_apply_other _ _ (Ne.symm hib)]
      have := hI.hbound
      omega

theorem inv_step_assignC {V : Type} [Inhabited V] {t b e a : Nat} {v : V}
    {k : Nat} {w : World V} {r : Registry V} (t' e' : Nat) (v' : V)
    (hav : ¬(t' = t ∧ e' = e))
    (hI : RoundTripInv t b e a v (k + 1) w r) :
    RoundTripInv t b e a v k (assign t' e' v' w r).2.1 (assign t' e' v' w r).2.2 := by
  cases hb' : get_component_bit_fn r t' with
  | some idx =>
    have hidxlt : idx < ECS_MAX_COMPONENT_COUNT := (get_bit_spec hb').1
    have hidxt : r.m_bit_to_component idx = t' := (get_bit_spec hb').2
    cases ha' : r.m_component_arrays idx with
    | none =>
      rw [assign_null e' v' w hb' ha']
      exact inv_incr idx hI
    | some a'' =>
      by_cases he' : e' < ECS_MAX_ENTITY_COUNT
      · rw [assign_hit w v' hb' ha' he']
        have hIinc := inv_incr idx hI
        by_cases hib : idx = b
        · -- re-assignment of the tracked component, necessarily on e' ≠ e
          subst hib
          have ht' : t' = t := by rw [hI.hbt] at hidxt; exact hidxt.symm
          have hee : e' ≠ e := fun hcontra => hav ⟨ht', hcontra⟩
          have haa : a'' = a := by
            have h0 := hI.harr
            rw [ha'] at h0
            exact Option.some.inj h0
          subst haa
          have hm : (r.m_components_assigned idx + 1) % U32
              = r.m_components_assigned idx + 1 :=
            Nat.mod_eq_of_lt (by have := hI.hbound; omega)
          refine
            { ht := hI.ht, hblt := hI.hblt, he := hI.he,
              hbt := hIinc.hbt, huniq := hIinc.huniq,
              hsig := ?_, harr := hIinc.harr,
              haddr := hIinc.haddr, hval := ?_, halias := hIinc.halias,
              hcount := ?_, hbound := hIinc.hbound }
          · show idx ∈ upd r.m_entity_signatures e'
              (insert idx (r.m_entity_signatures e')) e
            rw [upd_apply_other _ _ (Ne.symm hee)]
            exact hI.hsig
          · show upd w.heap a'' (upd (w.heap a'') e' v') a'' e = v
            rw [upd_apply_same, upd_apply_other _ _ (Ne.symm hee)]
            exact hI.hval
          · have hhold : holders (on_entity_signature_change e'
                (sig_set_bit idx e' (assign_incr_count idx r))) idx
                ≤ holders r idx + 1 := holders_insert_le rfl
            show holders (on_entity_signature_change e'
              (sig_set_bit idx e' (assign_incr_count idx r))) idx ≤
              upd r.m_components_assigned idx
                ((r.m_components_assigned idx + 1) % U32) idx
            rw [upd_apply_same, hm]
            have := hI.hcount
            omega
        · -- assignment of a different component type
          refine
            { ht := hI.ht, hblt := hI.hblt, he := hI.he,
              hbt := hIinc.hbt, huniq := hIinc.huniq,
              hsig := ?_, harr := hIinc.harr,
              haddr := hIinc.haddr, hval := ?_, halias := hIinc.halias,
              hcount := ?_, hbound := hIinc.hbound }
          · show b ∈ upd r.m_entity_signatures e'
              (insert idx (r.m_entity_signatures e')) e
            by_cases hee : e = e'
            · subst hee
              rw [upd_apply_same]
              exact Finset.mem_insert_of_mem hI.hsig
            · rw [upd_apply_other _ _ hee]
              exact hI.hsig
          · have hane : a ≠ a'' :=
              Ne.symm (hI.halias idx hidxlt a'' hib ha')
            show upd w.heap a'' (upd (w.heap a'') e' v') a e = v
            rw [upd_apply_other _ _ hane]
            exact hI.hval
          · have hhold : holders (on_entity_signature_change e'
                (sig_set_bit idx e' (assign_incr_count idx r))) b
                = holders r b := holders_insert_other hib rfl
            show holders (on_entity_signature_change e'
              (sig_set_bit idx e' (assign_incr_count idx r))) b ≤
              upd r.m_components_assigned idx
                ((r.m_components_assigned idx + 1) % U32) b
            rw [hhold, upd_apply_other _ _ (Ne.symm hib)]
            exact hI.hcount
      · rw [assign_oob v' w hb' ha' he']
        exact inv_incr idx hI
  | none =>
    cases hff : first_free_bit r with
    | none =>
      rw [assign_nofree v' w hb' hff]
      exact inv_weaken hI
    | some idx =>
      have hfree := first_free_spec hff
      have hib : idx ≠ b := by
        intro hcontra
        subst hcontra
        rw [hI.hbt] at hfree
        have := hI.ht
        omega
      have ht' : t' ≠ t := by
        intro hcontra
        subst hcontra
        rw [get_bit_eq_some hI.hblt hI.hbt hI.huniq] at hb'
        exact Option.noConfusion hb'
      have hana : a ≠ w.nextAddr := by have := hI.haddr; omega
      have hbt2 : upd r.m_bit_to_component idx t' b = t := by
        rw [upd_apply_other _ _ (Ne.symm hib)]
        exact hI.hbt
      have huniq2 : ∀ b' < ECS_MAX_COMPONENT_COUNT,
          upd r.m_bit_to_component idx t' b' = t → b' = b := by
        intro b' h1 h2
        by_cases hbi' : b' = idx
        · subst hbi'
          rw [upd_apply_same] at h2
          exact absurd h2 ht'
        · rw [upd_apply_other _ _ hbi'] at h2
          exact hI.huniq b' h1 h2
      have harr2 : upd r.m_component_arrays idx (some w.nextAddr) b = some a := by
        rw [upd_apply_other _ _ (Ne.symm hib)]
        exact hI.harr
      have halias2 : ∀ b' < ECS_MAX_COMPONENT_COUNT, ∀ a', b' ≠ b →
          upd r.m_component_arrays idx (some w.nextAddr) b' = some a' →
          a' ≠ a := by
        intro b' hb'2 a' hne ha'2
        by_cases hbi' : b' = idx
        · subst hbi'
          rw [upd_apply_same] at ha'2
          cases ha'2
          exact Ne.symm hana
        · rw [upd_apply_other _ _ hbi'] at ha'2
          exact hI.halias b' hb'2 a' hne ha'2
      by_cases he' : e' < ECS_MAX_ENTITY_COUNT
      · rw [assign_fresh v' w hb' hff he']
        refine
          { ht := hI.ht, hblt := hI.hblt, he := hI.he,
            hbt := hbt2, huniq := huniq2,
            hsig := ?_, harr := harr2,
            haddr := ?_, hval := ?_, halias := halias2,
            hcount := ?_, hbound := ?_ }
        · show b ∈ upd r.m_entity_signatures e'
            (insert idx (r.m_entity_signatures e')) e
          by_cases hee : e = e'
          · subst hee
            rw [upd_apply_same]
            exact Finset.mem_insert_of_mem hI.hsig
          · rw [upd_apply_other _ _ hee]
            exact hI.hsig
        · show a < w.nextAddr + 1
          have := hI.haddr
          omega
        · show upd (upd w.heap w.nextAddr (fun _ => default)) w.nextAddr
            (upd (upd w.heap w.nextAddr (fun _ => default) w.nextAddr) e' v') a e = v
          rw [upd_apply_other _ _ hana, upd_apply_other _ _ hana]
          exact hI.hval
        · have hhold : holders (on_entity_signature_change e'
              (sig_set_bit idx e' (assign_incr_count idx
                (created_bit_state t' idx w r)))) b
              = holders r b := holders_insert_other hib rfl
          show holders (on_entity_signature_change e'
            (sig_set_bit idx e' (assign_incr_count idx
              (created_bit_state t' idx w r)))) b ≤
            upd r.m_components_assigned idx
              ((r.m_components_assigned idx + 1) % U32) b
          rw [hhold, upd_apply_other _ _ (Ne.symm hib)]
          exact hI.hcount
        · show upd r.m_components_assigned idx
            ((r.m_components_assigned idx + 1) % U32) b + k < U32
          rw [upd_apply_other _ _ (Ne.symm hib)]
          have := hI.hbound
          omega
      · rw [assign_fresh_oob v' w hb' hff he']
        refine
          { ht := hI.ht, hblt := hI.hblt, he := hI.he,
            hbt := hbt2, huniq := huniq2,
            hsig := hI.hsig, harr := harr2,
            haddr := ?_, hval := ?_, halias := halias2,
            hcount := ?_, hbound := ?_ }
        · show a < w.nextAddr + 1
          have := hI.haddr
          omega
        · show upd w.heap w.nextAddr (fun _ => default) a e = v
          rw [upd_apply_other _ _ hana]
          exact hI.hval
        · show holders (assign_incr_count idx (created_bit_state t' idx w r)) b ≤
            upd r.m_components_assigned idx
              ((r.m_components_assigned idx + 1) % U32) b
          rw [upd_apply_other _ _ (Ne.symm hib)]
          exact hI.hcount
        · show upd r.m_components_assigned idx
            ((r.m_components_assigned idx + 1) % U32) b + k < U32
          rw [upd_apply_other _ _ (Ne.symm hib)]
          have := hI.hbound
          omega

/-- One avoided operation preserves the invariant, consuming one unit of
count headroom. -/
theorem inv_step {V : Type} [Inhabited V] {t b e a : Nat} {v : V} {k : Nat}
    {w : World V} {r : Registry V} (op : Op V) (hav : AvoidsTE t e op)
    (hI : RoundTripInv t b e a v (k + 1) w r) :
    RoundTripInv t b e a v k (step op (w, r)).1 (step op (w, r)).2 := by
  cases op with
  | createE => exact inv_step_createE hI
  | destroyE e' => exact inv_step_destroyE e' hav hI
  | assignC t' e' v' => exact inv_step_assignC t' e' v' hav hI
  | removeC t' e' => exact inv_step_removeC t' e' hav hI
  | createV ts => exact inv_step_createV ts hI
  | destroyV h => exact inv_step_destroyV h hI

/-- A sequence of avoided operations preserves the invariant when the count
headroom covers its length. -/
theorem inv_run {V : Type} [Inhabited V] {t b e a : Nat} {v : V} :
    ∀ (ops : List (Op V)) (w : World V) (r : Registry V),
      RoundTripInv t b e a v ops.length w r →
      (∀ op ∈ ops, AvoidsTE t e op) →
      RoundTripInv t b e a v 0 (run ops (w, r)).1 (run ops (w, r)).2 := by
  intro ops
  induction ops with
  | nil => intro w r hI _; exact hI
  | cons op tl ih =>
    intro w r hI hav
    have h1 : run (op :: tl) (w, r) = run tl (step op (w, r)) := rfl
    rw [h1]
    have h2 := inv_step op (hav op (List.mem_cons_self op tl)) hI
    have h3 := ih (step op (w, r)).1 (step op (w, r)).2 h2
      (fun o ho => hav o (List.mem_cons_of_mem op ho))
    exact h3

/-- In any sound state, `get` returns the stored value. -/
theorem inv_get {V : Type} {t b e a : Nat} {v : V} {k : Nat}
    {w : World V} {r : Registry V}
    (hI : RoundTripInv t b e a v k w r) :
    Registry.get t e w r = .ok v := by
  rw [get_eq_ok w (get_bit_eq_some hI.hblt hI.hbt hI.huniq) hI.harr hI.he]
  rw [hI.hval]

/-- A successful `assign<T>(e, v)` on a `T`-sound registry establishes the
round-trip invariant for the stored value. -/
theorem assign_establishes {V : Type} [Inhabited V] (t e : Nat) (v : V)
    (w0 : World V) (r0 : Registry V) (k : Nat)
    (ht : 0 < t)
    (huniq0 : ∀ b1 < ECS_MAX_COMPONENT_COUNT, ∀ b2 < ECS_MAX_COMPONENT_COUNT,
      r0.m_bit_to_component b1 = t → r0.m_bit_to_component b2 = t → b1 = b2)
    (hvalid : ∀ b < ECS_MAX_COMPONENT_COUNT, ∀ aa,
      r0.m_component_arrays b = some aa → aa < w0.nextAddr)
    (hinj : ∀ b1 < ECS_MAX_COMPONENT_COUNT, ∀ b2 < ECS_MAX_COMPONENT_COUNT,
      ∀ a1 a2, r0.m_component_arrays b1 = some a1 →
        r0.m_component_arrays b2 = some a2 → b1 ≠ b2 → a1 ≠ a2)
    (hold : ∀ b < ECS_MAX_COMPONENT_COUNT, holders r0 b ≤ r0.m_components_assigned b)
    (hcap : ∀ b < ECS_MAX_COMPONENT_COUNT,
      r0.m_components_assigned b + 1 + k < U32)
    (hsucc : (assign t e v w0 r0).1 = none) :
    ∃ b a, RoundTripInv t b e a v k (assign t e v w0 r0).2.1
      (assign t e v w0 r0).2.2 := by
  cases hb : get_component_bit_fn r0 t with
  | some b =>
    have hblt : b < ECS_MAX_COMPONENT_COUNT := (get_bit_spec hb).1
    have hbt : r0.m_bit_to_component b = t := (get_bit_spec hb).2
    cases ha : r0.m_component_arrays b with
    | none =>
      exfalso
      rw [assign_null e v w0 hb ha] at hsucc
      exact Option.noConfusion hsucc
    | some a'' =>
      by_cases he : e < ECS_MAX_ENTITY_COUNT
      · refine ⟨b, a'', ?_⟩
        rw [assign_hit w0 v hb ha he]
        have hm : (r0.m_components_assigned b + 1) % U32
            = r0.m_components_assigned b + 1 :=
          Nat.mod_eq_of_lt (by have := hcap b hblt; omega)
        refine
          { ht := ht, hblt := hblt, he := he, hbt := hbt,
            huniq := fun b' h1 h2 => huniq0 b' h1 b hblt h2 hbt,
            hsig := ?_, harr := ha,
            haddr := hvalid b hblt a'' ha, hval := ?_,
            halias := fun b' hb' a' hne ha' =>
              hinj b' hb' b hblt a' a'' ha' ha hne,
            hcount := ?_, hbound := ?_ }
        · show b ∈ upd r0.m_entity_signatures e
            (insert b (r0.m_entity_signatures e)) e
          rw [upd_apply_same]
          exact Finset.mem_insert_self _ _
        · show upd w0.heap a'' (upd (w0.heap a'') e v) a'' e = v
          rw [upd_apply_same, upd_apply_same]
        · have hhold : holders (on_entity_signature_change e
              (sig_set_bit b e (assign_incr_count b r0))) b
              ≤ holders r0 b + 1 := holders_insert_le rfl
          show holders (on_entity_signature_change e
            (sig_set_bit b e (assign_incr_count b r0))) b ≤
            upd r0.m_components_assigned b
              ((r0.m_components_assigned b + 1) % U32) b
          rw [upd_apply_same, hm]
          have := hold b hblt
          omega
        · show upd r0.m_components_assigned b
            ((r0.m_components_assigned b + 1) % U32) b + k < U32
          rw [upd_apply_same, hm]
          have := hcap b hblt
          omega
      · exfalso
        rw [assign_oob v w0 hb ha he] at hsucc
        exact Option.noConfusion hsucc
  | none =>
    cases hff : first_free_bit r0 with
    | none =>
      exfalso
      rw [assign_nofree v w0 hb hff] at hsucc
      exact Option.noConfusion hsucc
    | some b =>
      have hfree := first_free_spec hff
      by_cases he : e < ECS_MAX_ENTITY_COUNT
      · refine ⟨b, w0.nextAddr, ?_⟩
        rw [assign_fresh v w0 hb hff he]
        have hnone := get_bit_none_forall hb
        have hm : (r0.m_components_assigned b + 1) % U32
            = r0.m_components_assigned b + 1 :=
          Nat.mod_eq_of_lt (by have := hcap b hfree.1; omega)
        refine
          { ht := ht, hblt := hfree.1, he := he,
            hbt := ?_, huniq := ?_,
            hsig := ?_, harr := ?_,
            haddr := ?_, hval := ?_, halias := ?_,
            hcount := ?_, hbound := ?_ }
        · show upd r0.m_bit_to_component b t b = t
          exact upd_apply_same _ _ _
        · intro b' h1 h2
          replace h2 : upd r0.m_bit_to_component b t b' = t := h2
          by_cases hbb : b' = b
          · exact hbb
          · rw [upd_apply_other _ _ hbb] at h2
            exact absurd h2 (hnone b' h1)
        · show b ∈ upd r0.m_entity_signatures e
            (insert b (r0.m_entity_signatures e)) e
          rw [upd_apply_same]
          exact Finset.mem_insert_self _ _
        · show upd r0.m_component_arrays b (some w0.nextAddr) b
            = some w0.nextAddr
          exact upd_apply_same _ _ _
        · show w0.nextAddr < w0.nextAddr + 1
          omega
        · show upd (upd w0.heap w0.nextAddr (fun _ => default)) w0.nextAddr
            (upd (upd w0.heap w0.nextAddr (fun _ => default) w0.nextAddr) e v)
            w0.nextAddr e = v
          rw [upd_apply_same, upd_apply_same]
        · intro b' hb' a' hne ha'
          replace ha' : upd r0.m_component_arrays b (some w0.nextAddr) b'
              = some a' := ha'
          rw [upd_apply_other _ _ hne] at ha'
          have := hvalid b' hb' a' ha'
          omega
        · have hhold : holders (on_entity_signature_change e
              (sig_set_bit b e (assign_incr_count b
                (created_bit_state t b w0 r0)))) b
              ≤ holders r0 b + 1 := holders_insert_le rfl
          show holders (on_entity_signature_change e
            (sig_set_bit b e (assign_incr_count b
              (created_bit_state t b w0 r0)))) b ≤
            upd r0.m_components_assigned b
              ((r0.m_components_assigned b + 1) % U32) b
          rw [upd_apply_same, hm]
          have := hold b hfree.1
          omega
        · show upd r0.m_components_assigned b
            ((r0.m_components_assigned b + 1) % U32) b + k < U32
          rw [upd_apply_same, hm]
          have := hcap b hfree.1
          omega
      · exfalso
        rw [assign_fresh_oob v w0 hb hff he] at hsucc
        exact Option.noConfusion hsucc

/-- C4 amended: the store/load round trip holds on `T`-sound registries.
After a successful `assign<T>(e, v)` on a registry in which `T` is bound at
most once, storage addresses are valid and pairwise distinct, every bit's
`uint32` reference count is at least its holder count, and the counts leave
headroom for the remaining operations (no wraparound), `get<T>(e)` still
returns `v` after any sequence of operations that never assigns or removes
`T` on `e` and never destroys `e`.  Copy-constructed registries violate the
count soundness (their counts are reset to zero), which is what the
counterexample exploits. -/
theorem c4_amended_roundtrip {V : Type} [Inhabited V] (t e : Nat) (v : V)
    (w0 : World V) (r0 : Registry V) (ops : List (Op V))
    (ht : 0 < t)
    (huniq0 : ∀ b1 < ECS_MAX_COMPONENT_COUNT, ∀ b2 < ECS_MAX_COMPONENT_COUNT,
      r0.m_bit_to_component b1 = t → r0.m_bit_to_component b2 = t → b1 = b2)
    (hvalid : ∀ b < ECS_MAX_COMPONENT_COUNT, ∀ aa,
      r0.m_component_arrays b = some aa → aa < w0.nextAddr)
    (hinj : ∀ b1 < ECS_MAX_COMPONENT_COUNT, ∀ b2 < ECS_MAX_COMPONENT_COUNT,
      ∀ a1 a2, r0.m_component_arrays b1 = some a1 →
        r0.m_component_arrays b2 = some a2 → b1 ≠ b2 → a1 ≠ a2)
    (hold : ∀ b < ECS_MAX_COMPONENT_COUNT, holders r0 b ≤ r0.m_components_assigned b)
    (hcap : ∀ b < ECS_MAX_COMPONENT_COUNT,
      r0.m_components_assigned b + 1 + ops.length < U32)
    (hsucc : (assign t e v w0 r0).1 = none)
    (havoid : ∀ op ∈ ops, AvoidsTE t e op) :
    Registry.get t e (run ops (assign t e v w0 r0).2).1
      (run ops (assign t e v w0 r0).2).2 = .ok v := by
  obtain ⟨b, a, hInv⟩ := assign_establishes t e v w0 r0 ops.length ht huniq0
    hvalid hinj hold hcap hsucc
  have h2 := inv_run ops (assign t e v w0 r0).2.1 (assign t e v w0 r0).2.2
    hInv havoid
  exact inv_get h2

/-- Holder counts of a registry in which only entity `e0` has any signature
bits set. -/
theorem holders_single {V : Type} {r : Registry V} {e0 : Nat} {s : Finset Nat}
    (he0 : e0 < ECS_MAX_ENTITY_COUNT)
    (hs : r.m_entity_signatures = upd (fun _ => ∅) e0 s) (b : Nat) :
    holders r b = if b ∈ s then 1 else 0 := by
  unfold holders
  have hfe : (Finset.range ECS_MAX_ENTITY_COUNT).filter
      (fun x => b ∈ r.m_entity_signatures x)
      = if b ∈ s then {e0} else ∅ := by
    ext x
    rw [Finset.mem_filter, hs]
    by_cases hxe : x = e0
    · subst hxe
      rw [upd_apply_same]
      by_cases hbs : b ∈ s <;> simp [hbs, Finset.mem_range.mpr he0]
    · rw [upd_apply_other _ _ hxe]
      by_cases hbs : b ∈ s <;> simp [hbs, hxe]
  rw [hfe]
  by_cases hbs : b ∈ s <;> simp [hbs]

/-- Witness for the amended C4: in the one-entity registry holding component
type `1` (value `10`), re-assign value `42`, then assign a *different* type
`2` on the same entity; `get<1>(0)` still returns `42`. -/
theorem c4_amended_roundtrip_witness :
    ((0 : Nat) < 1 ∧ (assign 1 0 42 stC7a.1 stC7a.2).1 = none ∧
     AvoidsTE 1 0 (Op.assignC 2 0 99)) ∧
    Registry.get 1 0
      (run [(.assignC 2 0 99 : Op Nat)] (assign 1 0 42 stC7a.1 stC7a.2).2).1
      (run [(.assignC 2 0 99 : Op Nat)] (assign 1 0 42 stC7a.1 stC7a.2).2).2
      = .ok 42 := by
  have hbitfn : stC7a.2.m_bit_to_component = upd (fun _ => 0) 0 1 := rfl
  have hsigfn : stC7a.2.m_entity_signatures
      = upd (fun _ => ∅) 0 (insert 0 ∅) := rfl
  have hD1 : ∀ b < ECS_MAX_COMPONENT_COUNT,
      upd (fun _ => 0) 0 1 b = 1 → b = 0 := by decide
  have huniq0 : ∀ b1 < ECS_MAX_COMPONENT_COUNT, ∀ b2 < ECS_MAX_COMPONENT_COUNT,
      stC7a.2.m_bit_to_component b1 = 1 → stC7a.2.m_bit_to_component b2 = 1 →
      b1 = b2 := by
    intro b1 h1 b2 h2 e1 e2
    rw [hbitfn] at e1 e2
    rw [hD1 b1 h1 e1, hD1 b2 h2 e2]
  have hDv : ∀ b < ECS_MAX_COMPONENT_COUNT,
      (stC7a.2.m_component_arrays b).getD 0 < stC7a.1.nextAddr := by decide
  have hvalid : ∀ b < ECS_MAX_COMPONENT_COUNT, ∀ aa,
      stC7a.2.m_component_arrays b = some aa → aa < stC7a.1.nextAddr := by
    intro b hb aa ha
    have hx := hDv b hb
    rw [ha] at hx
    exact hx
  have hDn : ∀ b < ECS_MAX_COMPONENT_COUNT, b ≠ 0 →
      stC7a.2.m_component_arrays b = none := by decide
  have hinj : ∀ b1 < ECS_MAX_COMPONENT_COUNT, ∀ b2 < ECS_MAX_COMPONENT_COUNT,
      ∀ a1 a2, stC7a.2.m_component_arrays b1 = some a1 →
        stC7a.2.m_component_arrays b2 = some a2 → b1 ≠ b2 → a1 ≠ a2 := by
    intro b1 h1 b2 h2 a1 a2 ha1 ha2 hne
    by_cases hb1 : b1 = 0
    · subst hb1
      rw [hDn b2 h2 (fun hc => hne hc.symm)] at ha2
      exact Option.noConfusion ha2
    · rw [hDn b1 h1 hb1] at ha1
      exact Option.noConfusion ha1
  have hCnt : ∀ b < ECS_MAX_COMPONENT_COUNT,
      (if b ∈ (insert 0 ∅ : Finset Nat) then 1 else 0)
        ≤ stC7a.2.m_components_assigned b := by decide
  have hold : ∀ b < ECS_MAX_COMPONENT_COUNT,
      holders stC7a.2 b ≤ stC7a.2.m_components_assigned b := by
    intro b hb
    rw [holders_single (by decide) hsigfn b]
    exact hCnt b hb
  have hcap : ∀ b < ECS_MAX_COMPONENT_COUNT,
      stC7a.2.m_components_assigned b + 1 +
        ([(.assignC 2 0 99 : Op Nat)] : List (Op Nat)).length < U32 := by decide
  have hsucc : (assign 1 0 42 stC7a.1 stC7a.2).1 = none := by decide
  have havoid : ∀ op ∈ ([(.assignC 2 0 99 : Op Nat)] : List (Op Nat)),
      AvoidsTE 1 0 op := by
    intro op hop
    rcases List.mem_singleton.mp hop with rfl
    intro hc
    exact absurd hc.1 (by decide)
  exact ⟨⟨by decide, hsucc, fun hc => absurd hc.1 (by decide)⟩,
    c4_amended_roundtrip 1 0 42 stC7a.1 stC7a.2 [(.assignC 2 0 99 : Op Nat)]
      (by decide) huniq0 hvalid hinj hold hcap hsucc havoid⟩

end Ecs
